import Mathlib

/-!
Verification of the weather-server core against its specification.

The Go sources are shallowly embedded: Go maps become association lists
with first-match lookup, `time.Time` / `time.Duration` become `Int`
nanoseconds since the epoch, `float64` values become `Rat` (Go's JSON
round-trips float64 exactly, so an exact numeric type is faithful for the
properties considered here), and fallible Go functions return `Except`.
Each definition mirrors one function of the repository; the file comment
above every definition names it.
-/

namespace WeatherServer

/-! ## Association-list model of Go maps

A Go `map[string]V` is modelled as a `List (String × V)` with
first-match lookup.  All reachable registry states keep keys unique, so
first-match lookup agrees with Go map semantics. -/

/-- Lookup of a key in an association list (Go `m[k]` two-result form). -/
def mapGet {α : Type} : List (String × α) → String → Option α
  | [], _ => none
  | (k', v) :: rest, k => if k' = k then some v else mapGet rest k

/-- Lookup with a default (Go `m[k]` one-result form, zero value default). -/
def mapGetD {α : Type} (l : List (String × α)) (k : String) (d : α) : α :=
  (mapGet l k).getD d

/-- Store under a key (Go `m[k] = v`): replaces the first binding of `k`,
appends if absent. -/
def mapSet {α : Type} : List (String × α) → String → α → List (String × α)
  | [], k, v => [(k, v)]
  | (k', v') :: rest, k, v =>
      if k' = k then (k, v) :: rest else (k', v') :: mapSet rest k v

/-- Delete a key (Go `delete(m, k)`): removes the first binding of `k`. -/
def mapDel {α : Type} : List (String × α) → String → List (String × α)
  | [], _ => []
  | (k', v') :: rest, k =>
      if k' = k then rest else (k', v') :: mapDel rest k

/-- Keys of the association list are pairwise distinct. -/
def KeysNodup {α : Type} (l : List (String × α)) : Prop :=
  (l.map Prod.fst).Nodup

theorem mapGet_mapSet_self {α : Type} (l : List (String × α)) (k : String) (v : α) :
    mapGet (mapSet l k v) k = some v := by
  induction l with
  | nil => simp [mapSet, mapGet]
  | cons p rest ih =>
      by_cases h : p.1 = k
      · simp [mapSet, mapGet, h]
      · simp [mapSet, mapGet, h, ih]

theorem mapGet_mapSet_ne {α : Type} (l : List (String × α)) (k k' : String) (v : α)
    (h : k ≠ k') : mapGet (mapSet l k v) k' = mapGet l k' := by
  induction l with
  | nil => simp [mapSet, mapGet, h]
  | cons p rest ih =>
      by_cases hp : p.1 = k
      · subst hp
        simp [mapSet, mapGet, h]
      · by_cases hp' : p.1 = k'
        · subst hp'
          simp [mapSet, mapGet, hp]
        · simp [mapSet, mapGet, hp, hp', ih]

theorem mapGet_mapDel_self {α : Type} (l : List (String × α)) (k : String)
    (h : KeysNodup l) : mapGet (mapDel l k) k = none := by
  induction l with
  | nil => simp [mapDel, mapGet]
  | cons p rest ih =>
      simp only [KeysNodup, List.map_cons, List.nodup_cons] at h
      by_cases hp : p.1 = k
      · subst hp
        cases hg : mapGet rest p.1 with
        | none => simp [mapDel, hg]
        | some v =>
            exfalso
            apply h.1
            clear ih h
            induction rest with
            | nil => simp [mapGet] at hg
            | cons q qs ihq =>
                simp only [mapGet] at hg
                by_cases hq : q.1 = p.1
                · simp [hq]
                · simp only [hq, if_false] at hg
                  simp [ihq hg]
      · simp [mapDel, mapGet, hp, ih h.2]

theorem mapGet_mapDel_ne {α : Type} (l : List (String × α)) (k k' : String)
    (h : k ≠ k') : mapGet (mapDel l k) k' = mapGet l k' := by
  induction l with
  | nil => simp [mapDel, mapGet]
  | cons p rest ih =>
      by_cases hp : p.1 = k
      · subst hp
        have hne : ¬ p.1 = k' := h
        simp [mapDel, mapGet, hne]
      · by_cases hp' : p.1 = k'
        · subst hp'
          simp [mapDel, mapGet, hp]
        · simp [mapDel, mapGet, hp, hp', ih]

theorem mapGet_isSome_iff_mem_keys {α : Type} (l : List (String × α)) (k : String) :
    (mapGet l k).isSome ↔ k ∈ l.map Prod.fst := by
  induction l with
  | nil => simp [mapGet]
  | cons p rest ih =>
      by_cases hp : p.1 = k
      · simp [mapGet, hp]
      · have hne : ¬ k = p.1 := fun hh => hp hh.symm
        simp [mapGet, hp, ih, hne]

theorem mapGet_eq_some_mem {α : Type} {l : List (String × α)} {k : String} {v : α}
    (h : mapGet l k = some v) : (k, v) ∈ l := by
  induction l with
  | nil => simp [mapGet] at h
  | cons p rest ih =>
      by_cases hp : p.1 = k
      · subst hp
        simp [mapGet] at h
        subst h
        simp
      · simp [mapGet, hp] at h
        simp [ih h]

theorem mem_mapSet {α : Type} {l : List (String × α)} {k : String} {v : α} {q : String × α}
    (h : q ∈ mapSet l k v) : q = (k, v) ∨ q ∈ l := by
  induction l with
  | nil => simpa [mapSet] using h
  | cons p rest ih =>
      by_cases hp : p.1 = k
      · subst hp
        simp [mapSet] at h
        rcases h with h | h
        · exact Or.inl h
        · exact Or.inr (List.mem_cons_of_mem _ h)
      · simp [mapSet, hp] at h
        rcases h with h | h
        · exact Or.inr (by simp [h])
        · rcases ih h with h' | h'
          · exact Or.inl h'
          · exact Or.inr (List.mem_cons_of_mem _ h')

theorem mem_mapDel {α : Type} {l : List (String × α)} {k : String} {q : String × α}
    (h : q ∈ mapDel l k) : q ∈ l := by
  induction l with
  | nil => simp [mapDel] at h
  | cons p rest ih =>
      by_cases hp : p.1 = k
      · subst hp
        simp [mapDel] at h
        exact List.mem_cons_of_mem _ h
      · simp [mapDel, hp] at h
        rcases h with h | h
        · simp [h]
        · exact List.mem_cons_of_mem _ (ih h)

theorem keys_mapSet_subset {α : Type} (l : List (String × α)) (k : String) (v : α) :
    ∀ k' ∈ (mapSet l k v).map Prod.fst, k' = k ∨ k' ∈ l.map Prod.fst := by
  intro k' hk'
  simp only [List.mem_map] at hk'
  obtain ⟨q, hq, hqk⟩ := hk'
  rcases mem_mapSet hq with h | h
  · subst h
    exact Or.inl hqk.symm
  · exact Or.inr (by simp only [List.mem_map]; exact ⟨q, h, hqk⟩)

theorem keysNodup_mapSet {α : Type} {l : List (String × α)} (k : String) (v : α)
    (h : KeysNodup l) : KeysNodup (mapSet l k v) := by
  induction l with
  | nil => simp [mapSet, KeysNodup]
  | cons p rest ih =>
      simp only [KeysNodup, List.map_cons, List.nodup_cons] at h
      by_cases hp : p.1 = k
      · subst hp
        simpa [mapSet, KeysNodup] using h
      · have hrest := ih h.2
        simp only [mapSet, hp, if_false, KeysNodup, List.map_cons, List.nodup_cons]
        refine ⟨?_, hrest⟩
        intro hmem
        rcases keys_mapSet_subset rest k v _ hmem with h' | h'
        · exact hp h'
        · exact h.1 h'

theorem keysNodup_mapDel {α : Type} {l : List (String × α)} (k : String)
    (h : KeysNodup l) : KeysNodup (mapDel l k) := by
  induction l with
  | nil => simp [mapDel, KeysNodup]
  | cons p rest ih =>
      simp only [KeysNodup, List.map_cons, List.nodup_cons] at h
      by_cases hp : p.1 = k
      · subst hp
        simpa [mapDel, KeysNodup] using h.2
      · simp only [mapDel, hp, if_false, KeysNodup, List.map_cons, List.nodup_cons]
        refine ⟨?_, ih h.2⟩
        intro hmem
        simp only [List.mem_map] at hmem
        obtain ⟨q, hq, hqk⟩ := hmem
        exact h.1 (by simp only [List.mem_map]; exact ⟨q, mem_mapDel hq, hqk⟩)

/-- Sum of a numeric projection of the values (used for the registry's
count-versus-index-size invariant). -/
def sumVals {α : Type} (l : List (String × α)) (f : α → Nat) : Nat :=
  (l.map (fun p => f p.2)).sum

theorem sumVals_cons {α : Type} (p : String × α) (l : List (String × α)) (f : α → Nat) :
    sumVals (p :: l) f = f p.2 + sumVals l f := by
  simp [sumVals]

theorem sumVals_mapSet_absent {α : Type} {l : List (String × α)} {k : String} (v : α)
    (f : α → Nat) (h : mapGet l k = none) :
    sumVals (mapSet l k v) f = sumVals l f + f v := by
  induction l with
  | nil => simp [mapSet, sumVals]
  | cons p rest ih =>
      by_cases hp : p.1 = k
      · subst hp
        simp [mapGet] at h
      · simp only [mapGet, hp, if_false] at h
        have := ih h
        simp only [mapSet, hp, if_false, sumVals_cons]
        omega

theorem sumVals_mapSet_present {α : Type} {l : List (String × α)} {k : String} {v0 : α}
    (v : α) (f : α → Nat) (h : mapGet l k = some v0) :
    sumVals (mapSet l k v) f + f v0 = sumVals l f + f v := by
  induction l with
  | nil => simp [mapGet] at h
  | cons p rest ih =>
      by_cases hp : p.1 = k
      · subst hp
        simp [mapGet] at h
        subst h
        simp only [mapSet, if_pos rfl, if_true, sumVals_cons]
        omega
      · simp only [mapGet, hp, if_false] at h
        have := ih h
        simp only [mapSet, hp, if_false, sumVals_cons]
        omega

theorem sumVals_mapDel_present {α : Type} {l : List (String × α)} {k : String} {v0 : α}
    (f : α → Nat) (h : mapGet l k = some v0) :
    sumVals (mapDel l k) f + f v0 = sumVals l f := by
  induction l with
  | nil => simp [mapGet] at h
  | cons p rest ih =>
      by_cases hp : p.1 = k
      · subst hp
        simp [mapGet] at h
        subst h
        simp only [mapDel, if_pos rfl, if_true, sumVals_cons]
        omega
      · simp only [mapGet, hp, if_false] at h
        have := ih h
        simp only [mapDel, hp, if_false, sumVals_cons]
        omega

theorem length_mapSet_absent {α : Type} {l : List (String × α)} {k : String} (v : α)
    (h : mapGet l k = none) : (mapSet l k v).length = l.length + 1 := by
  induction l with
  | nil => simp [mapSet]
  | cons p rest ih =>
      by_cases hp : p.1 = k
      · subst hp
        simp [mapGet] at h
      · simp only [mapGet, hp, if_false] at h
        simp [mapSet, hp, ih h]

/-! ## Connection registry (src/internal/connection/manager.go)

`ClientInfo` drops the Go `net.Conn` socket handle and the per-record
mutex: both are opaque resources with no bearing on the registry's map
contents.  Timestamps are `Int` nanoseconds. -/

/-- Session record (Go `connection.ClientInfo`, data fields only). -/
structure ClientInfo where
  connectionID : String
  zipcode : String
  city : String
  connectedAt : Int
  lastHeardFrom : Int
deriving Repr, DecidableEq

/-- Registry state (Go `connection.Manager`, without the RW lock). -/
structure Manager where
  clients : List (String × ClientInfo)
  byZipcode : List (String × List String)
  maxConns : Nat
deriving Repr, DecidableEq

/-- Errors returned by `Manager.Register` / `Manager.Unregister`. -/
inductive RegistryError where
  | maxConnectionsReached
  | alreadyRegistered (id : String)
  | notFound (id : String)
deriving Repr, DecidableEq

/-- Go `connection.NewManager`. -/
def Manager.new (maxConnections : Nat) : Manager :=
  { clients := [], byZipcode := [], maxConns := maxConnections }

/-- Go `Manager.Register`: rejects when at capacity or when the id is
already present; otherwise stores the session and appends the id to the
zipcode index. -/
def Manager.Register (m : Manager) (connectionID zipcode city : String) (now : Int) :
    Except RegistryError Manager :=
  if m.maxConns ≤ m.clients.length then
    .error .maxConnectionsReached
  else if (mapGet m.clients connectionID).isSome then
    .error (.alreadyRegistered connectionID)
  else
    let clientInfo : ClientInfo :=
      { connectionID := connectionID, zipcode := zipcode, city := city
        connectedAt := now, lastHeardFrom := now }
    .ok { m with
          clients := mapSet m.clients connectionID clientInfo
          byZipcode := mapSet m.byZipcode zipcode
            (mapGetD m.byZipcode zipcode [] ++ [connectionID]) }

/-- Removal of the first occurrence of an id from a zipcode slice (the
`for ... break` loop inside Go `Manager.Unregister`). -/
def removeFirst : List String → String → List String
  | [], _ => []
  | x :: rest, y => if x = y then rest else x :: removeFirst rest y

/-- Go `Manager.Unregister`: removes the id from its zipcode's slice
(first occurrence), deletes the zipcode entry if the slice became empty,
then deletes the session. -/
def Manager.Unregister (m : Manager) (connectionID : String) :
    Except RegistryError Manager :=
  match mapGet m.clients connectionID with
  | none => .error (.notFound connectionID)
  | some client =>
      let zipcode := client.zipcode
      let byZipcode' :=
        match mapGet m.byZipcode zipcode with
        | none => m.byZipcode
        | some connIDs =>
            let remaining := removeFirst connIDs connectionID
            if remaining.isEmpty then mapDel m.byZipcode zipcode
            else mapSet m.byZipcode zipcode remaining
      .ok { m with
            byZipcode := byZipcode'
            clients := mapDel m.clients connectionID }

/-- Go `Manager.Get`. -/
def Manager.Get (m : Manager) (connectionID : String) : Option ClientInfo :=
  mapGet m.clients connectionID

/-- Go `Manager.GetByZipcode` (the slice copy is identity here). -/
def Manager.GetByZipcode (m : Manager) (zipcode : String) : List String :=
  mapGetD m.byZipcode zipcode []

/-- Go `Manager.Count`. -/
def Manager.Count (m : Manager) : Nat :=
  m.clients.length

/-- One registry operation (used to range over call sequences). -/
inductive RegOp where
  | register (id zipcode city : String) (now : Int)
  | unregister (id : String)
deriving Repr, DecidableEq

/-- Apply an operation, keeping the old state when the call errors (a Go
caller that receives an error observes an unchanged registry). -/
def Manager.applyOp (m : Manager) : RegOp → Manager
  | .register id zipcode city now =>
      match m.Register id zipcode city now with
      | .ok m' => m'
      | .error _ => m
  | .unregister id =>
      match m.Unregister id with
      | .ok m' => m'
      | .error _ => m

/-- Apply a whole call sequence. -/
def Manager.applyOps (m : Manager) (ops : List RegOp) : Manager :=
  ops.foldl Manager.applyOp m

theorem mem_mapSet_strong {α : Type} {l : List (String × α)} {k : String} {v : α}
    {q : String × α} (hn : KeysNodup l) (h : q ∈ mapSet l k v) :
    q = (k, v) ∨ (q ∈ l ∧ q.1 ≠ k) := by
  induction l with
  | nil =>
      simp [mapSet] at h
      exact Or.inl h
  | cons p rest ih =>
      simp only [KeysNodup, List.map_cons, List.nodup_cons] at hn
      by_cases hp : p.1 = k
      · subst hp
        simp [mapSet] at h
        rcases h with h | h
        · exact Or.inl h
        · refine Or.inr ⟨List.mem_cons_of_mem _ h, ?_⟩
          intro hq
          exact hn.1 (by simp only [List.mem_map]; exact ⟨q, h, hq⟩)
      · simp [mapSet, hp] at h
        rcases h with h | h
        · exact Or.inr ⟨by simp [h], by simp [h, hp]⟩
        · rcases ih hn.2 h with h' | h'
          · exact Or.inl h'
          · exact Or.inr ⟨List.mem_cons_of_mem _ h'.1, h'.2⟩

theorem mem_mapDel_strong {α : Type} {l : List (String × α)} {k : String}
    {q : String × α} (hn : KeysNodup l) (h : q ∈ mapDel l k) :
    q ∈ l ∧ q.1 ≠ k := by
  induction l with
  | nil => simp [mapDel] at h
  | cons p rest ih =>
      simp only [KeysNodup, List.map_cons, List.nodup_cons] at hn
      by_cases hp : p.1 = k
      · subst hp
        simp only [mapDel, if_pos rfl] at h
        refine ⟨List.mem_cons_of_mem _ h, ?_⟩
        intro hq
        exact hn.1 (by simp only [List.mem_map]; exact ⟨q, h, hq⟩)
      · simp [mapDel, hp] at h
        rcases h with h | h
        · exact ⟨by simp [h], by simp [h, hp]⟩
        · have := ih hn.2 h
          exact ⟨List.mem_cons_of_mem _ this.1, this.2⟩

theorem mem_mapDel_of_ne {α : Type} {l : List (String × α)} {k : String}
    {q : String × α} (h : q ∈ l) (hne : q.1 ≠ k) : q ∈ mapDel l k := by
  induction l with
  | nil => simp at h
  | cons p rest ih =>
      rcases List.mem_cons.mp h with h | h
      · subst h
        simp [mapDel, hne]
      · by_cases hp : p.1 = k
        · simp [mapDel, hp, h]
        · simp [mapDel, hp]
          exact Or.inr (ih h)

theorem mapGet_of_mem_nodup {α : Type} {l : List (String × α)} {q : String × α}
    (hn : KeysNodup l) (h : q ∈ l) : mapGet l q.1 = some q.2 := by
  induction l with
  | nil => simp at h
  | cons p rest ih =>
      simp only [KeysNodup, List.map_cons, List.nodup_cons] at hn
      rcases List.mem_cons.mp h with h | h
      · subst h
        simp [mapGet]
      · have hne : ¬ p.1 = q.1 := by
          intro hq
          exact hn.1 (by simp only [List.mem_map]; exact ⟨q, h, hq.symm⟩)
        simp [mapGet, hne, ih hn.2 h]

theorem length_mapDel_present {α : Type} {l : List (String × α)} {k : String} {v : α}
    (h : mapGet l k = some v) : (mapDel l k).length + 1 = l.length := by
  induction l with
  | nil => simp [mapGet] at h
  | cons p rest ih =>
      by_cases hp : p.1 = k
      · subst hp
        simp [mapDel]
      · simp only [mapGet, hp, if_false] at h
        simp [mapDel, hp, ← ih h]

/-- Occurrence count of an id in a zipcode slice. -/
def countOcc (l : List String) (x : String) : Nat :=
  (l.filter (fun y => y = x)).length

theorem countOcc_nil (x : String) : countOcc [] x = 0 := rfl

theorem countOcc_cons (y : String) (l : List String) (x : String) :
    countOcc (y :: l) x = (if y = x then 1 else 0) + countOcc l x := by
  by_cases h : y = x
  · simp [countOcc, h]
    omega
  · simp [countOcc, h]

theorem countOcc_append (a b : List String) (x : String) :
    countOcc (a ++ b) x = countOcc a x + countOcc b x := by
  induction a with
  | nil => simp [countOcc]
  | cons y rest ih =>
      simp only [List.cons_append, countOcc_cons, ih]
      omega

theorem countOcc_eq_zero_iff (l : List String) (x : String) :
    countOcc l x = 0 ↔ x ∉ l := by
  induction l with
  | nil => simp [countOcc]
  | cons y rest ih =>
      by_cases h : y = x
      · subst h
        simp [countOcc_cons, ih]
      · have hne : ¬ x = y := fun hh => h hh.symm
        simp [countOcc_cons, h, ih, hne]

theorem countOcc_pos_of_mem {l : List String} {x : String} (h : x ∈ l) :
    0 < countOcc l x := by
  by_contra hc
  have : countOcc l x = 0 := by omega
  exact (countOcc_eq_zero_iff l x).mp this h

theorem removeFirst_sublist (l : List String) (y : String) :
    (removeFirst l y).Sublist l := by
  induction l with
  | nil => simp [removeFirst]
  | cons x rest ih =>
      by_cases h : x = y
      · simp [removeFirst, h]
      · simp only [removeFirst, h, if_false]
        exact ih.cons₂ x

theorem countOcc_removeFirst_self {l : List String} {y : String} (h : y ∈ l) :
    countOcc (removeFirst l y) y + 1 = countOcc l y := by
  induction l with
  | nil => simp at h
  | cons x rest ih =>
      by_cases hx : x = y
      · subst hx
        simp [removeFirst, countOcc_cons]
        omega
      · have hmem : y ∈ rest := by
          rcases List.mem_cons.mp h with h' | h'
          · exact absurd h'.symm hx
          · exact h'
        simp only [removeFirst, hx, if_false, countOcc_cons]
        have := ih hmem
        omega

theorem countOcc_removeFirst_ne (l : List String) {x y : String} (h : x ≠ y) :
    countOcc (removeFirst l y) x = countOcc l x := by
  induction l with
  | nil => simp [removeFirst]
  | cons z rest ih =>
      by_cases hz : z = y
      · subst hz
        have : ¬ z = x := fun hh => h hh.symm
        simp [removeFirst, countOcc_cons, this]
      · simp only [removeFirst, hz, if_false, countOcc_cons, ih]

theorem length_removeFirst {l : List String} {y : String} (h : y ∈ l) :
    (removeFirst l y).length + 1 = l.length := by
  induction l with
  | nil => simp at h
  | cons x rest ih =>
      by_cases hx : x = y
      · simp [removeFirst, hx]
      · have hmem : y ∈ rest := by
          rcases List.mem_cons.mp h with h' | h'
          · exact absurd h'.symm hx
          · exact h'
        simp only [removeFirst, hx, if_false, List.length_cons, ih hmem]

theorem mem_removeFirst {l : List String} {x y : String}
    (h : x ∈ removeFirst l y) : x ∈ l :=
  (removeFirst_sublist l y).mem h

/-- Mutual consistency of the registry's two maps: unique keys on both,
every client id indexed exactly once under its own zipcode, every indexed
id backed by a client of that zipcode, no empty slices, slices duplicate
free, and the client count equal to the summed slice lengths. -/
def Manager.WF (m : Manager) : Prop :=
  KeysNodup m.clients ∧
  KeysNodup m.byZipcode ∧
  (∀ q ∈ m.byZipcode, q.2 ≠ []) ∧
  (∀ p ∈ m.clients, countOcc (mapGetD m.byZipcode p.2.zipcode []) p.1 = 1) ∧
  (∀ q ∈ m.byZipcode, ∀ id ∈ q.2, ∃ p ∈ m.clients, p.1 = id ∧ p.2.zipcode = q.1) ∧
  (∀ q ∈ m.byZipcode, q.2.Nodup) ∧
  m.clients.length = sumVals m.byZipcode List.length

theorem mapGetD_get_some {α : Type} {l : List (String × α)} {k : String} {v : α}
    (h : mapGet l k = some v) (d : α) : mapGetD l k d = v := by
  simp [mapGetD, h]

theorem mapSet_absent_eq_append {α : Type} {l : List (String × α)} {k : String} (v : α)
    (h : mapGet l k = none) : mapSet l k v = l ++ [(k, v)] := by
  induction l with
  | nil => simp [mapSet]
  | cons p rest ih =>
      by_cases hp : p.1 = k
      · subst hp
        simp [mapGet] at h
      · simp only [mapGet, hp, if_false] at h
        simp [mapSet, hp, ih h]

theorem mapGetD_get_none {α : Type} {l : List (String × α)} {k : String}
    (h : mapGet l k = none) (d : α) : mapGetD l k d = d := by
  simp [mapGetD, h]

theorem register_preserves_WF {m m' : Manager} {id zipcode city : String} {now : Int}
    (hwf : m.WF) (h : m.Register id zipcode city now = .ok m') : m'.WF := by
  obtain ⟨hw1, hw2, hw3, hw4, hw5, hw6, hw7⟩ := hwf
  have hcap : ¬ m.maxConns ≤ m.clients.length := by
    by_contra hc
    simp [Manager.Register, hc] at h
  have hsome : ¬ (mapGet m.clients id).isSome := by
    by_contra hc
    simp [Manager.Register, hcap, hc] at h
  have hnone : mapGet m.clients id = none := by
    cases hg : mapGet m.clients id with
    | none => rfl
    | some v => exact absurd (by simp [hg]) hsome
  simp only [Manager.Register, if_neg hcap, if_neg hsome, Except.ok.injEq] at h
  subst h
  set ci : ClientInfo :=
    { connectionID := id, zipcode := zipcode, city := city
      connectedAt := now, lastHeardFrom := now } with hci
  set old : List String := mapGetD m.byZipcode zipcode [] with hold
  -- an id absent from the clients map is listed in no zipcode slice
  have hnotin : ∀ q ∈ m.byZipcode, id ∉ q.2 := by
    intro q hq hidq
    obtain ⟨p, hp, hpid, _⟩ := hw5 q hq id hidq
    exact hsome ((mapGet_isSome_iff_mem_keys m.clients id).mpr
      (List.mem_map.mpr ⟨p, hp, hpid⟩))
  have hid_old : id ∉ old := by
    intro hmem
    cases hg : mapGet m.byZipcode zipcode with
    | none => simp [hold, mapGetD_get_none hg] at hmem
    | some connIDs =>
        rw [hold, mapGetD_get_some hg] at hmem
        exact hnotin _ (mapGet_eq_some_mem hg) hmem
  refine ⟨?_, ?_, ?_, ?_, ?_, ?_, ?_⟩
  · exact keysNodup_mapSet id ci hw1
  · exact keysNodup_mapSet zipcode (old ++ [id]) hw2
  · intro q hq
    rcases mem_mapSet hq with hq' | hq'
    · subst hq'
      simp
    · exact hw3 q hq'
  · intro p hp
    rcases mem_mapSet_strong hw1 hp with hp' | hp'
    · subst hp'
      have hget : mapGet (mapSet m.byZipcode zipcode (old ++ [id])) zipcode
          = some (old ++ [id]) := mapGet_mapSet_self _ _ _
      rw [mapGetD_get_some hget]
      simp only [countOcc_append]
      have h0 : countOcc old id = 0 := (countOcc_eq_zero_iff old id).mpr hid_old
      simp [hci, h0, countOcc_cons, countOcc_nil]
    · obtain ⟨hpmem, hpne⟩ := hp'
      by_cases hz : p.2.zipcode = zipcode
      · have hget : mapGet (mapSet m.byZipcode zipcode (old ++ [id])) p.2.zipcode
            = some (old ++ [id]) := by rw [hz]; exact mapGet_mapSet_self _ _ _
        rw [mapGetD_get_some hget, countOcc_append]
        have hone := hw4 p hpmem
        rw [hz] at hone
        have hpid : countOcc [id] p.1 = 0 := by
          have hne : ¬ id = p.1 := fun hh => hpne hh.symm
          simp [countOcc_cons, countOcc_nil, hne]
        rw [← hold] at hone
        omega
      · have hget : mapGet (mapSet m.byZipcode zipcode (old ++ [id])) p.2.zipcode
            = mapGet m.byZipcode p.2.zipcode :=
          mapGet_mapSet_ne _ _ _ _ (fun hh => hz hh.symm)
        rw [mapGetD, hget, ← mapGetD]
        exact hw4 p hpmem
  · intro q hq cid hcid
    have happ := mapSet_absent_eq_append ci hnone
    rcases mem_mapSet hq with hq' | hq'
    · subst hq'
      rcases List.mem_append.mp hcid with hin | hin
      · cases hg : mapGet m.byZipcode zipcode with
        | none => simp [hold, mapGetD_get_none hg] at hin
        | some connIDs =>
            rw [hold, mapGetD_get_some hg] at hin
            obtain ⟨p, hp, hpid, hpzip⟩ :=
              hw5 _ (mapGet_eq_some_mem hg) cid hin
            exact ⟨p, by rw [happ]; exact List.mem_append_left _ hp, hpid, hpzip⟩
      · have hin' : cid = id := by simpa using hin
        subst hin'
        refine ⟨(cid, ci), ?_, rfl, rfl⟩
        rw [happ]
        exact List.mem_append_right _ (by simp)
    · obtain ⟨p, hp, hpid, hpzip⟩ := hw5 q hq' cid hcid
      exact ⟨p, by rw [happ]; exact List.mem_append_left _ hp, hpid, hpzip⟩
  · intro q hq
    rcases mem_mapSet hq with hq' | hq'
    · subst hq'
      simp only [List.nodup_append]
      refine ⟨?_, by simp, ?_⟩
      · cases hg : mapGet m.byZipcode zipcode with
        | none => simp [hold, mapGetD_get_none hg]
        | some connIDs =>
            rw [hold, mapGetD_get_some hg]
            exact hw6 _ (mapGet_eq_some_mem hg)
      · intro a ha hb
        have hb' : a = id := by simpa using hb
        subst hb'
        exact hid_old ha
    · exact hw6 q hq'
  · have hlen : (mapSet m.clients id ci).length = m.clients.length + 1 :=
      length_mapSet_absent ci hnone
    simp only [hlen]
    cases hg : mapGet m.byZipcode zipcode with
    | none =>
        have hold0 : old = [] := by rw [hold, mapGetD_get_none hg]
        have hsum := sumVals_mapSet_absent (α := List String)
          (old ++ [id]) List.length hg
        rw [hsum, hold0]
        simp only [List.nil_append, List.length_cons, List.length_nil]
        omega
    | some connIDs =>
        have hsum := sumVals_mapSet_present (α := List String)
          (old ++ [id]) List.length hg
        rw [hold, mapGetD_get_some hg] at hsum ⊢
        simp only [List.length_append, List.length_cons, List.length_nil] at hsum
        omega

theorem unregister_preserves_WF {m m' : Manager} {id : String}
    (hwf : m.WF) (h : m.Unregister id = .ok m') : m'.WF := by
  obtain ⟨hw1, hw2, hw3, hw4, hw5, hw6, hw7⟩ := hwf
  cases hgc : mapGet m.clients id with
  | none => simp [Manager.Unregister, hgc] at h
  | some client =>
      have hmemc : (id, client) ∈ m.clients := mapGet_eq_some_mem hgc
      have hcnt : countOcc (mapGetD m.byZipcode client.zipcode []) id = 1 :=
        hw4 _ hmemc
      cases hg : mapGet m.byZipcode client.zipcode with
      | none =>
          rw [mapGetD_get_none hg] at hcnt
          simp [countOcc_nil] at hcnt
      | some connIDs =>
          rw [mapGetD_get_some hg] at hcnt
          have hidmem : id ∈ connIDs := by
            by_contra hc
            rw [(countOcc_eq_zero_iff connIDs id).mpr hc] at hcnt
            exact absurd hcnt (by omega)
          simp only [Manager.Unregister, hgc, hg, Except.ok.injEq] at h
          subst h
          set remaining := removeFirst connIDs id with hrem
          have hconn_mem : (client.zipcode, connIDs) ∈ m.byZipcode :=
            mapGet_eq_some_mem hg
          have hnodup_conn : connIDs.Nodup := hw6 _ hconn_mem
          have hrem_cnt : countOcc remaining id + 1 = countOcc connIDs id :=
            countOcc_removeFirst_self hidmem
          have hrem_id : id ∉ remaining := by
            apply (countOcc_eq_zero_iff remaining id).mp
            omega
          have hlen_rem : remaining.length + 1 = connIDs.length :=
            length_removeFirst hidmem
          have hnodup_rem : remaining.Nodup :=
            (removeFirst_sublist connIDs id).nodup hnodup_conn
          -- a client other than `id` keeps its occurrence count in the slice
          have hkeep : ∀ p, p ∈ m.clients → p.1 ≠ id →
              p.2.zipcode = client.zipcode → countOcc remaining p.1 = 1 := by
            intro p hp hne hz
            have := hw4 p hp
            rw [hz, mapGetD_get_some hg] at this
            rw [hrem, countOcc_removeFirst_ne connIDs hne]
            exact this
          -- a client of a different zipcode is untouched by the slice rewrite
          have hother : ∀ p, p ∈ m.clients → p.2.zipcode ≠ client.zipcode →
              ∀ (l' : List (String × List String)),
                (∀ z, z ≠ client.zipcode → mapGet l' z = mapGet m.byZipcode z) →
                countOcc (mapGetD l' p.2.zipcode []) p.1 = 1 := by
            intro p hp hz l' hl'
            rw [mapGetD, hl' _ hz, ← mapGetD]
            exact hw4 p hp
          -- membership in the shrunken slice is backed by a surviving client
          have hback : ∀ id', id' ∈ remaining →
              ∃ p ∈ mapDel m.clients id, p.1 = id' ∧ p.2.zipcode = client.zipcode := by
            intro id' hid'
            obtain ⟨p, hp, hpid, hpz⟩ :=
              hw5 _ hconn_mem id' (mem_removeFirst hid')
            have hpne : p.1 ≠ id := by
              intro heq
              rw [hpid] at heq
              subst heq
              exact hrem_id hid'
            exact ⟨p, mem_mapDel_of_ne hp hpne, hpid, hpz⟩
          -- a client listed under another zipcode entry also survives
          have hback2 : ∀ q, q ∈ m.byZipcode → q.1 ≠ client.zipcode →
              ∀ id' ∈ q.2,
              ∃ p ∈ mapDel m.clients id, p.1 = id' ∧ p.2.zipcode = q.1 := by
            intro q hq hqne id' hid'
            obtain ⟨p, hp, hpid, hpz⟩ := hw5 q hq id' hid'
            have hpne : p.1 ≠ id := by
              intro heq
              have hpc : mapGet m.clients p.1 = some p.2 := mapGet_of_mem_nodup hw1 hp
              rw [heq, hgc] at hpc
              have hcl : p.2 = client := (Option.some.inj hpc).symm
              rw [hcl] at hpz
              exact hqne (hpz ▸ rfl)
            exact ⟨p, mem_mapDel_of_ne hp hpne, hpid, hpz⟩
          by_cases hb : remaining.isEmpty
          · have hrem0 : remaining = [] := List.isEmpty_iff.mp hb
            simp only [hb, if_true]
            refine ⟨keysNodup_mapDel id hw1, keysNodup_mapDel client.zipcode hw2,
              ?_, ?_, ?_, ?_, ?_⟩
            · intro q hq
              exact hw3 q (mem_mapDel hq)
            · intro p hp
              obtain ⟨hpmem, hpne⟩ := mem_mapDel_strong hw1 hp
              by_cases hz : p.2.zipcode = client.zipcode
              · exfalso
                have h1 := hkeep p hpmem hpne hz
                rw [hrem0] at h1
                simp [countOcc_nil] at h1
              · exact hother p hpmem hz _
                  (fun z hzne => mapGet_mapDel_ne m.byZipcode client.zipcode z
                    (fun hh => hzne hh.symm))
            · intro q hq id' hid'
              obtain ⟨hqmem, hqne⟩ := mem_mapDel_strong hw2 hq
              exact hback2 q hqmem hqne id' hid'
            · intro q hq
              exact hw6 q (mem_mapDel hq)
            · show (mapDel m.clients id).length
                = sumVals (mapDel m.byZipcode client.zipcode) List.length
              have hlc := length_mapDel_present hgc
              have hsum := sumVals_mapDel_present (α := List String) List.length hg
              simp only [hrem0, List.length_nil] at hlen_rem
              omega
          · simp only [hb, if_false]
            have hrem_ne : remaining ≠ [] := by
              intro hr0
              rw [hr0] at hb
              simp [List.isEmpty] at hb
            refine ⟨keysNodup_mapDel id hw1, keysNodup_mapSet client.zipcode remaining hw2,
              ?_, ?_, ?_, ?_, ?_⟩
            · intro q hq
              rcases mem_mapSet hq with hq' | hq'
              · subst hq'
                exact hrem_ne
              · exact hw3 q hq'
            · intro p hp
              show countOcc
                (mapGetD (mapSet m.byZipcode client.zipcode remaining) p.2.zipcode [])
                p.1 = 1
              obtain ⟨hpmem, hpne⟩ := mem_mapDel_strong hw1 hp
              by_cases hz : p.2.zipcode = client.zipcode
              · have hget : mapGet (mapSet m.byZipcode client.zipcode remaining)
                    p.2.zipcode = some remaining := by
                  rw [hz]; exact mapGet_mapSet_self _ _ _
                rw [mapGetD_get_some hget]
                exact hkeep p hpmem hpne hz
              · exact hother p hpmem hz _
                  (fun z hzne => mapGet_mapSet_ne m.byZipcode client.zipcode z remaining
                    (fun hh => hzne hh.symm))
            · intro q hq id' hid'
              rcases mem_mapSet_strong hw2 hq with hq' | hq'
              · subst hq'
                exact hback id' hid'
              · exact hback2 q hq'.1 hq'.2 id' hid'
            · intro q hq
              rcases mem_mapSet hq with hq' | hq'
              · subst hq'
                exact hnodup_rem
              · exact hw6 q hq'
            · show (mapDel m.clients id).length
                = sumVals (mapSet m.byZipcode client.zipcode remaining) List.length
              have hlc := length_mapDel_present hgc
              have hsum := sumVals_mapSet_present (α := List String)
                remaining List.length hg
              omega

theorem applyOp_preserves_WF {m : Manager} (hwf : m.WF) (op : RegOp) :
    (m.applyOp op).WF := by
  cases op with
  | register id zipcode city now =>
      cases h : m.Register id zipcode city now with
      | ok m' =>
          simpa [Manager.applyOp, h] using register_preserves_WF hwf h
      | error e =>
          simpa [Manager.applyOp, h] using hwf
  | unregister id =>
      cases h : m.Unregister id with
      | ok m' =>
          simpa [Manager.applyOp, h] using unregister_preserves_WF hwf h
      | error e =>
          simpa [Manager.applyOp, h] using hwf

theorem Manager_new_WF (maxConnections : Nat) : (Manager.new maxConnections).WF := by
  refine ⟨?_, ?_, ?_, ?_, ?_, ?_, ?_⟩ <;>
    simp [Manager.new, KeysNodup, sumVals]

theorem WF_index_iff_clients {m : Manager} (hwf : m.WF) (id : String) :
    (∃ q ∈ m.byZipcode, id ∈ q.2) ↔ (mapGet m.clients id).isSome := by
  obtain ⟨hw1, hw2, hw3, hw4, hw5, hw6, hw7⟩ := hwf
  constructor
  · rintro ⟨q, hq, hid⟩
    obtain ⟨p, hp, hpid, _⟩ := hw5 q hq id hid
    exact (mapGet_isSome_iff_mem_keys m.clients id).mpr
      (List.mem_map.mpr ⟨p, hp, hpid⟩)
  · intro hsome
    cases hg : mapGet m.clients id with
    | none => rw [hg] at hsome; simp at hsome
    | some client =>
        have hcnt := hw4 (id, client) (mapGet_eq_some_mem hg)
        cases hz : mapGet m.byZipcode client.zipcode with
        | none =>
            rw [mapGetD_get_none hz] at hcnt
            simp [countOcc_nil] at hcnt
        | some connIDs =>
            rw [mapGetD_get_some hz] at hcnt
            have : id ∈ connIDs := by
              by_contra hc
              rw [(countOcc_eq_zero_iff connIDs id).mpr hc] at hcnt
              exact absurd hcnt (by omega)
            exact ⟨(client.zipcode, connIDs), mapGet_eq_some_mem hz, this⟩

/-- C10: after every sequence of `Register`/`Unregister` calls the two
registry maps stay mutually consistent: an id is listed in the by-zipcode
index exactly when it is in the clients map (under its own zipcode,
exactly once), no zipcode maps to an empty slice, and `Count` equals the
summed slice lengths. -/
theorem registry_invariant_preserved (maxConnections : Nat) (ops : List RegOp) :
    ((Manager.new maxConnections).applyOps ops).WF ∧
    (∀ id, (∃ q ∈ ((Manager.new maxConnections).applyOps ops).byZipcode, id ∈ q.2) ↔
      (mapGet ((Manager.new maxConnections).applyOps ops).clients id).isSome) ∧
    ((Manager.new maxConnections).applyOps ops).Count =
      sumVals ((Manager.new maxConnections).applyOps ops).byZipcode List.length := by
  have hwf : ((Manager.new maxConnections).applyOps ops).WF := by
    have hgen : ∀ (l : List RegOp) (m : Manager), m.WF → (m.applyOps l).WF := by
      intro l
      induction l with
      | nil => intro m hm; simpa [Manager.applyOps] using hm
      | cons op rest ih =>
          intro m hm
          have : m.applyOps (op :: rest) = (m.applyOp op).applyOps rest := by
            simp [Manager.applyOps]
          rw [this]
          exact ih _ (applyOp_preserves_WF hm op)
    exact hgen ops _ (Manager_new_WF maxConnections)
  exact ⟨hwf, fun id => WF_index_iff_clients hwf id, hwf.2.2.2.2.2.2⟩

theorem removeFirst_append_not_mem {a : List String} {y : String} (h : y ∉ a) :
    removeFirst (a ++ [y]) y = a := by
  induction a with
  | nil => simp [removeFirst]
  | cons x rest ih =>
      have hx : ¬ x = y := by
        intro hh
        exact h (by simp [hh])
      have hrest : y ∉ rest := fun hh => h (List.mem_cons_of_mem _ hh)
      simp [removeFirst, hx, ih hrest]

/-- C5: `Register` fails exactly when the live count has reached the
maximum or the id is already present; a successful `Register` adds exactly
that session, and a following `Unregister` removes it from both maps:
`Get` reports absent and the id no longer appears in `GetByZipcode`. -/
theorem registry_register_unregister_spec (m : Manager) (id zipcode city : String)
    (now : Int) (hwf : m.WF) :
    ((∃ e, m.Register id zipcode city now = .error e) ↔
        m.maxConns ≤ m.clients.length ∨ (mapGet m.clients id).isSome) ∧
    (∀ m', m.Register id zipcode city now = .ok m' →
      m'.Get id = some { connectionID := id, zipcode := zipcode, city := city
                         connectedAt := now, lastHeardFrom := now } ∧
      m'.Count = m.Count + 1 ∧
      (∀ other, other ≠ id → m'.Get other = m.Get other) ∧
      ∃ m'', m'.Unregister id = .ok m'' ∧
        m''.Get id = none ∧ id ∉ m''.GetByZipcode zipcode) := by
  constructor
  · constructor
    · rintro ⟨e, he⟩
      by_cases hcap : m.maxConns ≤ m.clients.length
      · exact Or.inl hcap
      · by_cases hdup : (mapGet m.clients id).isSome
        · exact Or.inr hdup
        · simp [Manager.Register, hcap, hdup] at he
    · intro hor
      by_cases hcap : m.maxConns ≤ m.clients.length
      · exact ⟨.maxConnectionsReached, by simp [Manager.Register, hcap]⟩
      · rcases hor with hcap' | hdup
        · exact absurd hcap' hcap
        · exact ⟨.alreadyRegistered id, by simp [Manager.Register, hcap, hdup]⟩
  · intro m' h
    have hcap : ¬ m.maxConns ≤ m.clients.length := by
      by_contra hc
      simp [Manager.Register, hc] at h
    have hsome : ¬ (mapGet m.clients id).isSome := by
      by_contra hc
      simp [Manager.Register, hcap, hc] at h
    have hnone : mapGet m.clients id = none := by
      cases hg : mapGet m.clients id with
      | none => rfl
      | some v => exact absurd (by simp [hg]) hsome
    have hwf' : m'.WF := register_preserves_WF hwf h
    simp only [Manager.Register, if_neg hcap, if_neg hsome, Except.ok.injEq] at h
    subst h
    set ci : ClientInfo :=
      { connectionID := id, zipcode := zipcode, city := city
        connectedAt := now, lastHeardFrom := now } with hci
    set old : List String := mapGetD m.byZipcode zipcode [] with hold
    have hid_old : id ∉ old := by
      intro hmem
      cases hg : mapGet m.byZipcode zipcode with
      | none => simp [hold, mapGetD_get_none hg] at hmem
      | some connIDs =>
          rw [hold, mapGetD_get_some hg] at hmem
          obtain ⟨p, hp, hpid, _⟩ := hwf.2.2.2.2.1 _ (mapGet_eq_some_mem hg) id hmem
          exact hsome ((mapGet_isSome_iff_mem_keys m.clients id).mpr
            (List.mem_map.mpr ⟨p, hp, hpid⟩))
    have hget : mapGet (mapSet m.clients id ci) id = some ci :=
      mapGet_mapSet_self _ _ _
    refine ⟨hget, length_mapSet_absent ci hnone, ?_, ?_⟩
    · intro other hother
      exact mapGet_mapSet_ne m.clients id other ci (fun hh => hother hh.symm)
    · have hzget : mapGet (mapSet m.byZipcode zipcode (old ++ [id])) zipcode
          = some (old ++ [id]) := mapGet_mapSet_self _ _ _
      have hrf : removeFirst (old ++ [id]) id = old :=
        removeFirst_append_not_mem hid_old
      simp only [Manager.Unregister, hget, hzget, hrf]
      by_cases hempty : old.isEmpty
      · have hold0 : old = [] := List.isEmpty_iff.mp hempty
        simp only [hempty, if_true]
        refine ⟨_, rfl, ?_, ?_⟩
        · exact mapGet_mapDel_self _ _ hwf'.1
        · have hdel : mapGet (mapDel (mapSet m.byZipcode zipcode (old ++ [id]))
              zipcode) zipcode = none := mapGet_mapDel_self _ _ hwf'.2.1
          simp [Manager.GetByZipcode, mapGetD, hdel]
      · simp only [hempty, if_false]
        refine ⟨_, rfl, ?_, ?_⟩
        · exact mapGet_mapDel_self _ _ hwf'.1
        · have hset : mapGet (mapSet (mapSet m.byZipcode zipcode (old ++ [id]))
              zipcode old) zipcode = some old := mapGet_mapSet_self _ _ _
          simp [Manager.GetByZipcode, mapGetD, hset, hid_old]

/-- Witness for C5 at a concrete registry: the empty registry is
well-formed and the specification holds for a first registration. -/
theorem registry_register_unregister_spec_witness :
    (Manager.new 10).WF ∧
    (((∃ e, (Manager.new 10).Register "conn1" "90210" "Beverly Hills" 0 = .error e) ↔
        (Manager.new 10).maxConns ≤ (Manager.new 10).clients.length ∨
          (mapGet (Manager.new 10).clients "conn1").isSome) ∧
    (∀ m', (Manager.new 10).Register "conn1" "90210" "Beverly Hills" 0 = .ok m' →
      m'.Get "conn1" = some { connectionID := "conn1", zipcode := "90210"
                              city := "Beverly Hills", connectedAt := 0
                              lastHeardFrom := 0 } ∧
      m'.Count = (Manager.new 10).Count + 1 ∧
      (∀ other, other ≠ "conn1" → m'.Get other = (Manager.new 10).Get other) ∧
      ∃ m'', m'.Unregister "conn1" = .ok m'' ∧
        m''.Get "conn1" = none ∧ "conn1" ∉ m''.GetByZipcode "90210")) :=
  ⟨Manager_new_WF 10,
   registry_register_unregister_spec (Manager.new 10) "conn1" "90210" "Beverly Hills" 0
     (Manager_new_WF 10)⟩

/-! ## Scheduled-event manager (package `timer`, in src/internal/queue/batch_writer.go)

The Go implementation keeps a binary min-heap (`timerHeap`, driven by the
standard library's `container/heap`) and an id-indexed map `tasks` in
lockstep under one mutex.  `container/heap` is Go standard-library code,
outside this repository; it is modelled by its documented contract: `Pop`
removes and returns a minimum element according to `Less`
(`timerHeap.Less i j = h[i].ExpiryAt.Before(h[j].ExpiryAt)`), `Remove`
removes the element a given id maps to, `Push` adds one.  The two
synchronized containers are therefore modelled as a single task list; a
callback closure is identified by an opaque `Nat`. -/

/-- Go `timer.TimerTask` (heap index dropped; callback as opaque id). -/
structure TimerTask where
  id : String
  expiryAt : Int
  callback : Nat
deriving Repr, DecidableEq

/-- Go `timer.TimerManager`: heap and id map in lockstep, collapsed to the
shared task collection, plus the stopped flag. -/
structure TimerManager where
  tasks : List TimerTask
  stopped : Bool
deriving Repr, DecidableEq

/-- Go `timer.NewTimerManager` (worker count irrelevant to the claims). -/
def TimerManager.new : TimerManager :=
  { tasks := [], stopped := false }

/-- Error returned by `Schedule` on a stopped manager. -/
inductive TimerError where
  | managerStopped
deriving Repr, DecidableEq

/-- Go `TimerManager.Schedule`: on a running manager, remove any existing
task with the same id (heap.Remove + map delete), then push the new task. -/
def TimerManager.Schedule (tm : TimerManager) (id : String) (expiryAt : Int)
    (callback : Nat) : Except TimerError TimerManager :=
  if tm.stopped then
    .error .managerStopped
  else
    .ok { tm with
          tasks := (tm.tasks.eraseP (fun t => t.id == id))
            ++ [{ id := id, expiryAt := expiryAt, callback := callback }] }

/-- Go `TimerManager.Cancel`: remove the task with the given id if
present; returns whether a removal occurred. -/
def TimerManager.Cancel (tm : TimerManager) (id : String) : Bool × TimerManager :=
  match tm.tasks.find? (fun t => t.id == id) with
  | none => (false, tm)
  | some _ => (true, { tm with tasks := tm.tasks.eraseP (fun t => t.id == id) })

/-- Leftmost minimum-expiry task: the element `container/heap`'s `Pop`
returns per its contract (`Less` compares `ExpiryAt` strictly, so any
tie-break refinement is expiry-equivalent). -/
def leftmostMin : List TimerTask → Option TimerTask
  | [] => none
  | t :: ts =>
      match leftmostMin ts with
      | none => some t
      | some u => if u.expiryAt < t.expiryAt then some u else some t

/-- One iteration of the Go scheduler loop body `TimerManager.run` at wall
time `now`: when the minimum task is due (`time.Until(expiry) <= 0`, i.e.
`expiry <= now`), pop it, delete it from the id map, and dispatch its
callback; otherwise the loop sleeps. -/
def TimerManager.runStep (tm : TimerManager) (now : Int) :
    Option (TimerTask × TimerManager) :=
  if tm.stopped then none
  else
    match leftmostMin tm.tasks with
    | none => none
    | some t =>
        if t.expiryAt ≤ now then
          some (t, { tm with tasks := tm.tasks.eraseP (fun u => u == t) })
        else
          none

theorem leftmostMin_mem {l : List TimerTask} {t : TimerTask}
    (h : leftmostMin l = some t) : t ∈ l := by
  induction l with
  | nil => simp [leftmostMin] at h
  | cons x rest ih =>
      simp only [leftmostMin] at h
      cases hr : leftmostMin rest with
      | none =>
          rw [hr] at h
          simp at h
          simp [h]
      | some u =>
          rw [hr] at h
          by_cases hc : u.expiryAt < x.expiryAt
          · simp [hc] at h
            exact List.mem_cons_of_mem _ (ih (h ▸ hr))
          · simp [hc] at h
            simp [h]

theorem leftmostMin_eq_none {l : List TimerTask} (h : leftmostMin l = none) :
    l = [] := by
  cases l with
  | nil => rfl
  | cons x rest =>
      simp only [leftmostMin] at h
      cases hr : leftmostMin rest with
      | none => rw [hr] at h; simp at h
      | some u =>
          rw [hr] at h
          by_cases hc : u.expiryAt < x.expiryAt <;> simp [hc] at h

theorem leftmostMin_le {l : List TimerTask} {t : TimerTask}
    (h : leftmostMin l = some t) : ∀ u ∈ l, t.expiryAt ≤ u.expiryAt := by
  induction l generalizing t with
  | nil => simp [leftmostMin] at h
  | cons x rest ih =>
      intro u hu
      simp only [leftmostMin] at h
      cases hr : leftmostMin rest with
      | none =>
          rw [hr] at h
          simp at h
          subst h
          have hrest : rest = [] := leftmostMin_eq_none hr
          subst hrest
          have hux : u = x := by simpa using hu
          simp [hux]
      | some v =>
          rw [hr] at h
          by_cases hc : v.expiryAt < x.expiryAt
          · simp [hc] at h
            subst h
            rcases List.mem_cons.mp hu with hu' | hu'
            · subst hu'
              omega
            · exact ih hr u hu'
          · simp [hc] at h
            subst h
            rcases List.mem_cons.mp hu with hu' | hu'
            · subst hu'
              omega
            · have := ih hr u hu'
              omega

theorem eraseP_length_lt {l : List TimerTask} {t : TimerTask} (h : t ∈ l) :
    (l.eraseP (fun u => u == t)).length < l.length := by
  have hp : (fun u => u == t) t = true := by simp
  have h2 := @List.length_eraseP_add_one TimerTask (fun u => u == t) l t h hp
  omega

theorem runStep_tasks_lt {tm tm' : TimerManager} {now : Int} {t : TimerTask}
    (h : tm.runStep now = some (t, tm')) : tm'.tasks.length < tm.tasks.length := by
  by_cases hs : tm.stopped
  · simp [TimerManager.runStep, hs] at h
  · simp only [TimerManager.runStep, hs, if_false] at h
    cases hm : leftmostMin tm.tasks with
    | none => rw [hm] at h; simp at h
    | some u =>
        rw [hm] at h
        by_cases hd : u.expiryAt ≤ now
        · simp [hd] at h
          obtain ⟨h1, h2⟩ := h
          subst h1
          rw [← h2]
          exact eraseP_length_lt (leftmostMin_mem hm)
        · simp [hd] at h

set_option linter.unusedVariables false in
/-- Full drain of the scheduler loop at wall time `now`: keep popping the
minimum while it is due.  Returns the dispatch sequence and the final
manager state. -/
def TimerManager.drain (tm : TimerManager) (now : Int) :
    List TimerTask × TimerManager :=
  match h : tm.runStep now with
  | none => ([], tm)
  | some (t, tm') =>
      let rest := tm'.drain now
      (t :: rest.1, rest.2)
termination_by tm.tasks.length
decreasing_by exact runStep_tasks_lt h

theorem drain_mem {tm : TimerManager} {now : Int} {t : TimerTask}
    (h : t ∈ (tm.drain now).1) : t ∈ tm.tasks ∧ t.expiryAt ≤ now := by
  induction tm, now using TimerManager.drain.induct with
  | case1 tm now hstep =>
      rw [TimerManager.drain, hstep] at h
      simp at h
  | case2 tm now u tm' hstep ih =>
      rw [TimerManager.drain, hstep] at h
      simp only at h
      by_cases hs : tm.stopped
      · simp [TimerManager.runStep, hs] at hstep
      · simp only [TimerManager.runStep, hs, if_false] at hstep
        cases hm : leftmostMin tm.tasks with
        | none => rw [hm] at hstep; simp at hstep
        | some v =>
            rw [hm] at hstep
            by_cases hd : v.expiryAt ≤ now
            · simp [hd] at hstep
              obtain ⟨hv, htm'⟩ := hstep
              subst hv
              rcases List.mem_cons.mp h with h' | h'
              · subst h'
                exact ⟨leftmostMin_mem hm, hd⟩
              · have := ih h'
                refine ⟨?_, this.2⟩
                have hsub : tm'.tasks ⊆ tm.tasks := by
                  rw [← htm']
                  exact fun x hx => (List.eraseP_sublist _).mem hx
                exact hsub this.1
            · simp [hd] at hstep

theorem drain_final_tasks {tm : TimerManager} {now : Int} {u : TimerTask}
    (h : u ∈ (tm.drain now).2.tasks) :
    u ∈ tm.tasks ∧ (tm.stopped = false → now < u.expiryAt) := by
  induction tm, now using TimerManager.drain.induct with
  | case1 tm now hstep =>
      rw [TimerManager.drain, hstep] at h
      simp only at h
      refine ⟨h, ?_⟩
      intro hs
      simp only [TimerManager.runStep, hs, if_neg] at hstep
      simp only [Bool.false_eq_true, if_false] at hstep
      cases hm : leftmostMin tm.tasks with
      | none =>
          have := leftmostMin_eq_none hm
          rw [this] at h
          simp at h
      | some v =>
          rw [hm] at hstep
          by_cases hd : v.expiryAt ≤ now
          · simp [hd] at hstep
          · have := leftmostMin_le hm u h
            omega
  | case2 tm now t tm' hstep ih =>
      rw [TimerManager.drain, hstep] at h
      simp only at h
      have hrec := ih h
      by_cases hs : tm.stopped
      · simp [TimerManager.runStep, hs] at hstep
      · simp only [TimerManager.runStep, hs, if_false] at hstep
        cases hm : leftmostMin tm.tasks with
        | none => rw [hm] at hstep; simp at hstep
        | some v =>
            rw [hm] at hstep
            by_cases hd : v.expiryAt ≤ now
            · simp [hd] at hstep
              obtain ⟨hv, htm'⟩ := hstep
              have hsub : tm'.tasks ⊆ tm.tasks := by
                rw [← htm']
                exact fun x hx => (List.eraseP_sublist _).mem hx
              have hstop' : tm'.stopped = false := by rw [← htm']
              refine ⟨hsub hrec.1, ?_⟩
              intro h0
              exact hrec.2 hstop'
            · simp [hd] at hstep

theorem drain_sorted (tm : TimerManager) (now : Int) :
    ((tm.drain now).1).Pairwise (fun a b => a.expiryAt ≤ b.expiryAt) := by
  induction tm, now using TimerManager.drain.induct with
  | case1 tm now hstep =>
      rw [TimerManager.drain, hstep]
      simp
  | case2 tm now t tm' hstep ih =>
      rw [TimerManager.drain, hstep]
      simp only [List.pairwise_cons]
      refine ⟨?_, ih⟩
      intro b hb
      by_cases hs : tm.stopped
      · simp [TimerManager.runStep, hs] at hstep
      · simp only [TimerManager.runStep, hs, if_false] at hstep
        cases hm : leftmostMin tm.tasks with
        | none => rw [hm] at hstep; simp at hstep
        | some v =>
            rw [hm] at hstep
            by_cases hd : v.expiryAt ≤ now
            · simp [hd] at hstep
              obtain ⟨hv, htm'⟩ := hstep
              subst hv
              have hbmem : b ∈ tm'.tasks := (drain_mem hb).1
              have hsub : tm'.tasks ⊆ tm.tasks := by
                rw [← htm']
                exact fun x hx => (List.eraseP_sublist _).mem hx
              exact leftmostMin_le hm b (hsub hbmem)
            · simp [hd] at hstep

/-- Repeated scheduler-loop drains at successive wall-clock instants (no
intervening schedule/cancel calls): the full dispatch record of the loop
over a fixed set of scheduled events. -/
def TimerManager.runLoop (tm : TimerManager) : List Int → List TimerTask × TimerManager
  | [] => ([], tm)
  | now :: rest =>
      let d := tm.drain now
      let ds := d.2.runLoop rest
      (d.1 ++ ds.1, ds.2)

theorem runLoop_mem {tm : TimerManager} {times : List Int} {t : TimerTask}
    (h : t ∈ (tm.runLoop times).1) : t ∈ tm.tasks := by
  induction times generalizing tm with
  | nil => simp [TimerManager.runLoop] at h
  | cons now rest ih =>
      simp only [TimerManager.runLoop] at h
      rcases List.mem_append.mp h with h' | h'
      · exact (drain_mem h').1
      · exact (drain_final_tasks (ih h')).1

/-- C4: over any run of the scheduler loop on a fixed set of scheduled
events — an arbitrary heap state drained at an arbitrary sequence of
wall-clock instants, each dispatch popping the heap minimum — the
dispatched callbacks are in non-decreasing order of expiry. -/
theorem timer_dispatch_sorted (tm : TimerManager) (times : List Int) :
    ((tm.runLoop times).1).Pairwise (fun a b => a.expiryAt ≤ b.expiryAt) := by
  induction times generalizing tm with
  | nil => simp [TimerManager.runLoop]
  | cons now rest ih =>
      simp only [TimerManager.runLoop]
      rw [List.pairwise_append]
      refine ⟨drain_sorted tm now, ih _, ?_⟩
      intro a ha b hb
      have ha' := drain_mem ha
      have hb' : b ∈ (tm.drain now).2.tasks := runLoop_mem hb
      have hbf := drain_final_tasks hb'
      by_cases hs : tm.stopped
      · exfalso
        have : (tm.drain now).1 = [] := by
          rw [TimerManager.drain]
          cases hstep : tm.runStep now with
          | none => simp
          | some p => simp [TimerManager.runStep, hs] at hstep
        rw [this] at ha
        simp at ha
      · have hgt := hbf.2 (by simpa using hs)
        have := ha'.2
        omega

/-- One interaction with the running timer manager: a `Schedule` or
`Cancel` call, one scheduler-loop dispatch iteration, or `Stop`. -/
inductive TMOp where
  | schedule (id : String) (expiry : Int) (cb : Nat)
  | cancel (id : String)
  | tick (now : Int)
  | stop
deriving Repr, DecidableEq

/-- Apply one operation; returns the new state and the dispatched tasks
(one task for a `tick` that fires, none otherwise).  A `Schedule` call
rejected because the manager is stopped leaves the state unchanged. -/
def TimerManager.stepOp (tm : TimerManager) : TMOp → TimerManager × List TimerTask
  | .schedule id e cb =>
      match tm.Schedule id e cb with
      | .ok tm' => (tm', [])
      | .error _ => (tm, [])
  | .cancel id => ((tm.Cancel id).2, [])
  | .tick now =>
      match tm.runStep now with
      | some (t, tm') => (tm', [t])
      | none => (tm, [])
  | .stop => ({ tm with stopped := true }, [])

/-- Apply a whole operation sequence, collecting the dispatch trace. -/
def TimerManager.runOps (tm : TimerManager) : List TMOp → TimerManager × List TimerTask
  | [] => (tm, [])
  | op :: rest =>
      let s := tm.stepOp op
      let r := s.1.runOps rest
      (r.1, s.2 ++ r.2)

/-- Task ids are pairwise distinct (at most one scheduled event per id). -/
def IdsNodup (tm : TimerManager) : Prop :=
  (tm.tasks.map TimerTask.id).Nodup

theorem erase_id_not_mem {l : List TimerTask} {id : String}
    (hn : (l.map TimerTask.id).Nodup) :
    ∀ t ∈ l.eraseP (fun u => u.id == id), t.id ≠ id := by
  induction l with
  | nil => simp
  | cons x rest ih =>
      simp only [List.map_cons, List.nodup_cons] at hn
      intro t ht
      by_cases hx : x.id = id
      · rw [List.eraseP_cons_of_pos (by simp [hx])] at ht
        intro htid
        exact hn.1 (List.mem_map.mpr ⟨t, ht, by rw [htid, hx]⟩)
      · rw [List.eraseP_cons_of_neg (by simp [hx])] at ht
        rcases List.mem_cons.mp ht with ht' | ht'
        · subst ht'
          exact hx
        · exact ih hn.2 t ht'

theorem ids_nodup_schedule {tm tm' : TimerManager} {id : String} {e : Int} {cb : Nat}
    (hn : IdsNodup tm) (h : tm.Schedule id e cb = .ok tm') : IdsNodup tm' := by
  by_cases hs : tm.stopped
  · simp [TimerManager.Schedule, hs] at h
  · simp only [TimerManager.Schedule, hs, Bool.false_eq_true, if_false,
      Except.ok.injEq] at h
    subst h
    simp only [IdsNodup, List.map_append, List.map_cons, List.map_nil]
    rw [List.nodup_append]
    refine ⟨?_, by simp, ?_⟩
    · exact ((List.eraseP_sublist _).map TimerTask.id).nodup hn
    · intro a ha hb
      have hb' : a = id := by simpa using hb
      subst hb'
      obtain ⟨t, ht, htid⟩ := List.mem_map.mp ha
      exact erase_id_not_mem hn t ht htid

theorem ids_nodup_sublist {tm : TimerManager} (hn : IdsNodup tm)
    {l : List TimerTask} (h : l.Sublist tm.tasks) :
    (l.map TimerTask.id).Nodup :=
  (h.map TimerTask.id).nodup hn

theorem ids_nodup_stepOp {tm : TimerManager} (hn : IdsNodup tm) (op : TMOp) :
    IdsNodup (tm.stepOp op).1 := by
  cases op with
  | schedule id e cb =>
      cases h : tm.Schedule id e cb with
      | ok tm' =>
          simpa [TimerManager.stepOp, h] using ids_nodup_schedule hn h
      | error e' =>
          simpa [TimerManager.stepOp, h] using hn
  | cancel id =>
      simp only [TimerManager.stepOp]
      cases h : tm.tasks.find? (fun t => t.id == id) with
      | none => simpa [TimerManager.Cancel, h] using hn
      | some t =>
          simp only [TimerManager.Cancel, h]
          exact ids_nodup_sublist hn (List.eraseP_sublist _)
  | tick now =>
      simp only [TimerManager.stepOp]
      cases h : tm.runStep now with
      | none => simpa using hn
      | some p =>
          simp only []
          by_cases hs : tm.stopped
          · simp [TimerManager.runStep, hs] at h
          · simp only [TimerManager.runStep, hs, if_false] at h
            cases hm : leftmostMin tm.tasks with
            | none => rw [hm] at h; simp at h
            | some v =>
                rw [hm] at h
                by_cases hd : v.expiryAt ≤ now
                · simp only [hd, if_true] at h
                  cases h
                  exact ids_nodup_sublist hn (List.eraseP_sublist _)
                · simp [hd] at h
  | stop => simpa [TimerManager.stepOp] using hn

/-- No scheduled task carries the given callback. -/
def NoCb (tm : TimerManager) (cb : Nat) : Prop :=
  ∀ t ∈ tm.tasks, t.callback ≠ cb

/-- Whether an operation schedules the given callback. -/
def opSchedulesCb : TMOp → Nat → Bool
  | .schedule _ _ cb, c => cb == c
  | _, _ => false

theorem noCb_stepOp {tm : TimerManager} {cb : Nat} (hn : NoCb tm cb) {op : TMOp}
    (hop : opSchedulesCb op cb = false) :
    NoCb (tm.stepOp op).1 cb ∧ ∀ t ∈ (tm.stepOp op).2, t.callback ≠ cb := by
  cases op with
  | schedule id e c =>
      have hc : c ≠ cb := by simpa [opSchedulesCb] using hop
      cases h : tm.Schedule id e c with
      | ok tm' =>
          have h' := h
          by_cases hs : tm.stopped
          · simp [TimerManager.Schedule, hs] at h'
          · simp only [TimerManager.Schedule, hs, Bool.false_eq_true, if_false,
              Except.ok.injEq] at h'
            refine ⟨?_, by simp [TimerManager.stepOp, h]⟩
            intro t ht
            simp only [TimerManager.stepOp, h] at ht
            rw [← h'] at ht
            simp only at ht
            rcases List.mem_append.mp ht with ht' | ht'
            · exact hn t ((List.eraseP_sublist _).mem ht')
            · have hcb : t.callback = c := by
                have ht'' : t = { id := id, expiryAt := e, callback := c } := by
                  simpa using ht'
                rw [ht'']
              rw [hcb]
              exact hc
      | error e' =>
          exact ⟨by simpa [TimerManager.stepOp, h] using hn,
                 by simp [TimerManager.stepOp, h]⟩
  | cancel id =>
      refine ⟨?_, by simp [TimerManager.stepOp]⟩
      intro t ht
      simp only [TimerManager.stepOp] at ht
      cases h : tm.tasks.find? (fun u => u.id == id) with
      | none =>
          rw [TimerManager.Cancel] at ht
          rw [h] at ht
          exact hn t ht
      | some u =>
          rw [TimerManager.Cancel] at ht
          rw [h] at ht
          simp only at ht
          exact hn t ((List.eraseP_sublist _).mem ht)
  | tick now =>
      simp only [TimerManager.stepOp]
      cases h : tm.runStep now with
      | none => exact ⟨by simpa using hn, by simp⟩
      | some p =>
          by_cases hs : tm.stopped
          · simp [TimerManager.runStep, hs] at h
          · simp only [TimerManager.runStep, hs, if_false] at h
            cases hm : leftmostMin tm.tasks with
            | none => rw [hm] at h; simp at h
            | some v =>
                rw [hm] at h
                by_cases hd : v.expiryAt ≤ now
                · simp only [hd, if_true] at h
                  cases h
                  constructor
                  · intro t ht
                    simp only at ht
                    exact hn t ((List.eraseP_sublist _).mem ht)
                  · intro t ht
                    have : t = v := by simpa using ht
                    rw [this]
                    exact hn v (leftmostMin_mem hm)
                · simp [hd] at h
  | stop => exact ⟨by simpa [TimerManager.stepOp] using hn, by simp [TimerManager.stepOp]⟩

theorem noCb_runOps {tm : TimerManager} {cb : Nat} (hn : NoCb tm cb)
    {ops : List TMOp} (hops : ∀ op ∈ ops, opSchedulesCb op cb = false) :
    ∀ t ∈ (tm.runOps ops).2, t.callback ≠ cb := by
  induction ops generalizing tm with
  | nil => simp [TimerManager.runOps]
  | cons op rest ih =>
      intro t ht
      simp only [TimerManager.runOps] at ht
      have hstep := noCb_stepOp hn (hops op (by simp))
      rcases List.mem_append.mp ht with ht' | ht'
      · exact hstep.2 t ht'
      · exact ih hstep.1 (fun o ho => hops o (List.mem_cons_of_mem _ ho)) t ht'

theorem eraseP_append_last {l : List TimerTask} {x : TimerTask} {id : String}
    (hl : ∀ t ∈ l, t.id ≠ id) (hx : x.id = id) :
    (l ++ [x]).eraseP (fun u => u.id == id) = l := by
  induction l with
  | nil => simp [List.eraseP_cons_of_pos, hx]
  | cons y rest ih =>
      have hy : ¬ (y.id == id) = true := by
        simp
        exact hl y (by simp)
      rw [List.cons_append,
        @List.eraseP_cons_of_neg TimerTask y (rest ++ [x]) (fun u => u.id == id) hy,
        ih (fun t ht => hl t (List.mem_cons_of_mem _ ht))]

/-- C3: starting from a fresh manager, every `Schedule`/`Cancel`/dispatch
sequence keeps at most one scheduled event per id; and a second
`Schedule` on the same id replaces the first event in the same operation:
the first callback is gone from the state, the pending-event count does
not grow, and no later operation sequence (that does not re-schedule that
callback) ever dispatches it. -/
theorem timer_schedule_replace_unique :
    (∀ ops : List TMOp, IdsNodup (TimerManager.new.runOps ops).1) ∧
    (∀ (tm tm1 tm2 : TimerManager) (id : String) (t1 : Int) (cb1 : Nat)
        (t2 : Int) (cb2 : Nat),
      IdsNodup tm → NoCb tm cb1 → cb2 ≠ cb1 →
      tm.Schedule id t1 cb1 = .ok tm1 →
      tm1.Schedule id t2 cb2 = .ok tm2 →
      (∀ t ∈ tm2.tasks, t.callback ≠ cb1) ∧
      tm2.tasks.length = tm1.tasks.length ∧
      (∀ ops : List TMOp, (∀ op ∈ ops, opSchedulesCb op cb1 = false) →
        ∀ t ∈ (tm2.runOps ops).2, t.callback ≠ cb1)) := by
  constructor
  · have hgen : ∀ (ops : List TMOp) (tm : TimerManager),
        IdsNodup tm → IdsNodup (tm.runOps ops).1 := by
      intro ops
      induction ops with
      | nil => intro tm h; simpa [TimerManager.runOps] using h
      | cons op rest ih =>
          intro tm h
          simp only [TimerManager.runOps]
          exact ih _ (ids_nodup_stepOp h op)
    intro ops
    exact hgen ops TimerManager.new (by simp [TimerManager.new, IdsNodup])
  · intro tm tm1 tm2 id t1 cb1 t2 cb2 hids hnocb hcb h1 h2
    by_cases hs : tm.stopped
    · simp [TimerManager.Schedule, hs] at h1
    · simp only [TimerManager.Schedule, hs, Bool.false_eq_true, if_false,
        Except.ok.injEq] at h1
      have hs1 : tm1.stopped = false := by rw [← h1]
      rw [TimerManager.Schedule] at h2
      rw [hs1] at h2
      simp only [Bool.false_eq_true, if_false, Except.ok.injEq] at h2
      have htasks1 : tm1.tasks
          = tm.tasks.eraseP (fun u => u.id == id)
            ++ [{ id := id, expiryAt := t1, callback := cb1 }] := by
        rw [← h1]
      have herase : tm1.tasks.eraseP (fun u => u.id == id)
          = tm.tasks.eraseP (fun u => u.id == id) := by
        rw [htasks1]
        exact eraseP_append_last (erase_id_not_mem hids) rfl
      have htasks2 : tm2.tasks
          = tm.tasks.eraseP (fun u => u.id == id)
            ++ [{ id := id, expiryAt := t2, callback := cb2 }] := by
        rw [← h2]
        simp only []
        rw [herase]
      have hno2 : ∀ t ∈ tm2.tasks, t.callback ≠ cb1 := by
        intro t ht
        rw [htasks2] at ht
        rcases List.mem_append.mp ht with ht' | ht'
        · exact hnocb t ((List.eraseP_sublist _).mem ht')
        · have heq : t = { id := id, expiryAt := t2, callback := cb2 } := by
            simpa using ht'
          rw [heq]
          exact hcb
      refine ⟨hno2, ?_, ?_⟩
      · rw [htasks1, htasks2]
        simp
      · intro ops hops
        exact noCb_runOps hno2 hops

/-- Witness for C3 at concrete inputs: rescheduling id "inactivity-c1"
replaces the pending event, after which callback 1 is absent, the count
is unchanged, and a later dispatch at time 100 never fires callback 1. -/
theorem timer_schedule_replace_unique_witness :
    (IdsNodup TimerManager.new ∧ NoCb TimerManager.new 1 ∧ (2 : Nat) ≠ 1 ∧
      TimerManager.new.Schedule "inactivity-c1" 5 1 =
        .ok { tasks := [{ id := "inactivity-c1", expiryAt := 5, callback := 1 }]
              stopped := false } ∧
      TimerManager.Schedule
        { tasks := [{ id := "inactivity-c1", expiryAt := 5, callback := 1 }]
          stopped := false } "inactivity-c1" 9 2 =
        .ok { tasks := [{ id := "inactivity-c1", expiryAt := 9, callback := 2 }]
              stopped := false }) ∧
    ((∀ t ∈ ({ tasks := [{ id := "inactivity-c1", expiryAt := 9, callback := 2 }]
               stopped := false } : TimerManager).tasks, t.callback ≠ 1) ∧
     ({ tasks := [{ id := "inactivity-c1", expiryAt := 9, callback := 2 }]
        stopped := false } : TimerManager).tasks.length
       = ({ tasks := [{ id := "inactivity-c1", expiryAt := 5, callback := 1 }]
            stopped := false } : TimerManager).tasks.length ∧
     (∀ ops : List TMOp, (∀ op ∈ ops, opSchedulesCb op 1 = false) →
        ∀ t ∈ (TimerManager.runOps
          { tasks := [{ id := "inactivity-c1", expiryAt := 9, callback := 2 }]
            stopped := false } ops).2, t.callback ≠ 1)) :=
  ⟨⟨by simp [IdsNodup, TimerManager.new], by simp [NoCb, TimerManager.new],
    by decide, by rfl, by rfl⟩,
   timer_schedule_replace_unique.2 TimerManager.new
     { tasks := [{ id := "inactivity-c1", expiryAt := 5, callback := 1 }]
       stopped := false }
     { tasks := [{ id := "inactivity-c1", expiryAt := 9, callback := 2 }]
       stopped := false }
     "inactivity-c1" 5 1 9 2
     (by simp [IdsNodup, TimerManager.new]) (by simp [NoCb, TimerManager.new])
     (by decide) (by rfl) (by rfl)⟩

/-! ## Framed JSON protocol (src/internal/protocol/messages.go)

`encoding/json` is Go standard-library code, outside this repository; it
is modelled at the JSON-value level: `json.Marshal` of a struct produces
an object with the struct's tag names in declaration order, and
`json.Unmarshal` matches fields by tag name, leaves absent fields at
their zero value, ignores unknown fields, and fails on a kind mismatch.
Newline framing is orthogonal to the parse/encode pair and not modelled.
`float64` values are carried as exact `Rat` (Go's shortest-round-trip
float formatting makes marshal/unmarshal exact on numbers). -/

/-- JSON value. -/
inductive Json where
  | str (s : String)
  | num (q : Rat)
  | jbool (b : Bool)
  | null
  | arr (elems : List Json)
  | obj (fields : List (String × Json))

/-- Decimal digit value of a character. -/
def digToNat (c : Char) : Nat := c.toNat - 48

/-- Gregorian leap-year rule (as in Go's `time` package). -/
def isLeapYear (y : Nat) : Bool :=
  (y % 4 == 0 && y % 100 != 0) || (y % 400 == 0)

/-- Days in a month (as in Go's `time` package day-range check). -/
def daysInMonth (y m : Nat) : Nat :=
  if m == 2 then (if isLeapYear y then 29 else 28)
  else if m == 4 || m == 6 || m == 9 || m == 11 then 30
  else 31

/-- Trailing timezone offset of an RFC-3339 timestamp: `Z` or `±hh:mm`. -/
def rfc3339ValidOffset : List Char → Bool
  | ['Z'] => true
  | [sign, h1, h2, ':', m1, m2] =>
      (sign == '+' || sign == '-') && h1.isDigit && h2.isDigit
        && m1.isDigit && m2.isDigit
        && 10 * digToNat h1 + digToNat h2 < 24
        && 10 * digToNat m1 + digToNat m2 < 60
  | _ => false

/-- Fractional-second digits followed by the offset. -/
def rfc3339FracTail : List Char → Nat → Bool
  | [], _ => false
  | c :: rest, n =>
      if c.isDigit then rfc3339FracTail rest (n + 1)
      else n > 0 && rfc3339ValidOffset (c :: rest)

/-- Everything after `hh:mm:ss`: optional `.digits`, then the offset. -/
def rfc3339AfterSeconds : List Char → Bool
  | '.' :: rest => rfc3339FracTail rest 0
  | cs => rfc3339ValidOffset cs

/-- Modelled from the Go standard library (outside this repository):
success of `time.Parse(time.RFC3339, s)` — layout
`2006-01-02T15:04:05Z07:00` with digit and range checks. -/
def rfc3339Valid (s : String) : Bool :=
  match s.data with
  | y1 :: y2 :: y3 :: y4 :: '-' :: m1 :: m2 :: '-' :: d1 :: d2 :: 'T' ::
      h1 :: h2 :: ':' :: mi1 :: mi2 :: ':' :: s1 :: s2 :: rest =>
      [y1, y2, y3, y4, m1, m2, d1, d2, h1, h2, mi1, mi2, s1, s2].all Char.isDigit
      && (let y := 1000 * digToNat y1 + 100 * digToNat y2 + 10 * digToNat y3 + digToNat y4
          let mo := 10 * digToNat m1 + digToNat m2
          let d := 10 * digToNat d1 + digToNat d2
          let h := 10 * digToNat h1 + digToNat h2
          let mi := 10 * digToNat mi1 + digToNat mi2
          let se := 10 * digToNat s1 + digToNat s2
          decide (1 ≤ mo) && decide (mo ≤ 12) && decide (1 ≤ d)
            && decide (d ≤ daysInMonth y mo)
            && decide (h < 24) && decide (mi < 60) && decide (se < 60))
      && rfc3339AfterSeconds rest
  | _ => false

/-- Go `protocol.IdentifyMessage`. -/
structure IdentifyMessage where
  type : String
  zipcode : String
  city : String
deriving Repr, DecidableEq

/-- Go `protocol.MetricData` (tags: timestamp, temperature, humidity,
precipitation, wind_speed, wind_direction, pollution_index, pollen_index). -/
structure MetricData where
  timestamp : String
  temperature : Rat
  humidity : Rat
  precipitation : Rat
  windSpeed : Rat
  windDirection : String
  pollutionIndex : Rat
  pollenIndex : Rat
deriving Repr, DecidableEq

/-- Go `protocol.MetricsMessage`. -/
structure MetricsMessage where
  type : String
  data : MetricData
deriving Repr, DecidableEq

/-- Go `protocol.KeepaliveMessage`. -/
structure KeepaliveMessage where
  type : String
deriving Repr, DecidableEq

/-- Go `protocol.AckMessage`. -/
structure AckMessage where
  type : String
  status : String
deriving Repr, DecidableEq

/-- The `interface{}` result of Go `protocol.ParseMessage` (and the
argument of `EncodeMessage`): one of the four message shapes. -/
inductive Message where
  | identify (m : IdentifyMessage)
  | metrics (m : MetricsMessage)
  | keepalive (m : KeepaliveMessage)
  | ack (m : AckMessage)
deriving Repr, DecidableEq

/-- Zero value of `MetricData` (Go struct zero value). -/
def zeroMetricData : MetricData :=
  { timestamp := "", temperature := 0, humidity := 0, precipitation := 0
    windSpeed := 0, windDirection := "", pollutionIndex := 0, pollenIndex := 0 }

/-- Unmarshal of a string-typed struct field: absent or null leaves the
zero value, a string is taken verbatim, any other kind fails. -/
def decodeStringField (fields : List (String × Json)) (name : String) :
    Except String String :=
  match mapGet fields name with
  | none => .ok ""
  | some (.str s) => .ok s
  | some .null => .ok ""
  | some _ => .error ("cannot unmarshal field " ++ name)

/-- Unmarshal of a float64-typed struct field. -/
def decodeNumField (fields : List (String × Json)) (name : String) :
    Except String Rat :=
  match mapGet fields name with
  | none => .ok 0
  | some (.num q) => .ok q
  | some .null => .ok 0
  | some _ => .error ("cannot unmarshal field " ++ name)

/-- Unmarshal into Go `protocol.BaseMessage`, projecting the type tag. -/
def decodeBaseType (j : Json) : Except String String :=
  match j with
  | .obj fields => decodeStringField fields "type"
  | _ => .error "cannot unmarshal into BaseMessage"

/-- Unmarshal into Go `protocol.IdentifyMessage`. -/
def decodeIdentifyMessage (j : Json) : Except String IdentifyMessage :=
  match j with
  | .obj fields => do
      let t ← decodeStringField fields "type"
      let z ← decodeStringField fields "zipcode"
      let c ← decodeStringField fields "city"
      .ok { type := t, zipcode := z, city := c }
  | _ => .error "cannot unmarshal into IdentifyMessage"

/-- Unmarshal into Go `protocol.MetricData`. -/
def decodeMetricData (j : Json) : Except String MetricData :=
  match j with
  | .obj fields => do
      let ts ← decodeStringField fields "timestamp"
      let te ← decodeNumField fields "temperature"
      let hu ← decodeNumField fields "humidity"
      let pr ← decodeNumField fields "precipitation"
      let ws ← decodeNumField fields "wind_speed"
      let wd ← decodeStringField fields "wind_direction"
      let po ← decodeNumField fields "pollution_index"
      let pl ← decodeNumField fields "pollen_index"
      .ok { timestamp := ts, temperature := te, humidity := hu, precipitation := pr
            windSpeed := ws, windDirection := wd, pollutionIndex := po, pollenIndex := pl }
  | .null => .ok zeroMetricData
  | _ => .error "cannot unmarshal into MetricData"

/-- Unmarshal into Go `protocol.MetricsMessage`. -/
def decodeMetricsMessage (j : Json) : Except String MetricsMessage :=
  match j with
  | .obj fields => do
      let t ← decodeStringField fields "type"
      let d ← match mapGet fields "data" with
              | none => pure zeroMetricData
              | some dj => decodeMetricData dj
      .ok { type := t, data := d }
  | _ => .error "cannot unmarshal into MetricsMessage"

/-- Unmarshal into Go `protocol.KeepaliveMessage`. -/
def decodeKeepaliveMessage (j : Json) : Except String KeepaliveMessage :=
  match j with
  | .obj fields => do
      let t ← decodeStringField fields "type"
      .ok { type := t }
  | _ => .error "cannot unmarshal into KeepaliveMessage"

/-- Go `protocol.validateIdentify`. -/
def validateIdentify (msg : IdentifyMessage) : Except String Unit :=
  if msg.zipcode = "" then .error "zipcode is required"
  else if msg.city = "" then .error "city is required"
  else .ok ()

/-- Go `protocol.validateMetrics`: timestamp required and RFC-3339. -/
def validateMetrics (msg : MetricsMessage) : Except String Unit :=
  if msg.data.timestamp = "" then .error "timestamp is required"
  else if rfc3339Valid msg.data.timestamp then .ok ()
  else .error "invalid timestamp format (must be RFC3339)"

/-- Go `protocol.ParseMessage`: discriminate on the type tag, decode the
concrete shape, validate.  `ack` is not a recognized type. -/
def ParseMessage (j : Json) : Except String Message :=
  match decodeBaseType j with
  | .error e => .error ("invalid JSON: " ++ e)
  | .ok t =>
      if t = "identify" then
        match decodeIdentifyMessage j with
        | .error e => .error ("invalid identify message: " ++ e)
        | .ok msg =>
            match validateIdentify msg with
            | .error e => .error e
            | .ok _ => .ok (.identify msg)
      else if t = "metrics" then
        match decodeMetricsMessage j with
        | .error e => .error ("invalid metrics message: " ++ e)
        | .ok msg =>
            match validateMetrics msg with
            | .error e => .error e
            | .ok _ => .ok (.metrics msg)
      else if t = "keepalive" then
        match decodeKeepaliveMessage j with
        | .error e => .error ("invalid keepalive message: " ++ e)
        | .ok msg => .ok (.keepalive msg)
      else .error ("unknown message type: " ++ t)

/-- Go `protocol.EncodeMessage` (`json.Marshal` of the message value). -/
def EncodeMessage : Message → Json
  | .identify m => .obj [("type", .str m.type), ("zipcode", .str m.zipcode),
      ("city", .str m.city)]
  | .metrics m => .obj [("type", .str m.type),
      ("data", .obj [("timestamp", .str m.data.timestamp),
                     ("temperature", .num m.data.temperature),
                     ("humidity", .num m.data.humidity),
                     ("precipitation", .num m.data.precipitation),
                     ("wind_speed", .num m.data.windSpeed),
                     ("wind_direction", .str m.data.windDirection),
                     ("pollution_index", .num m.data.pollutionIndex),
                     ("pollen_index", .num m.data.pollenIndex)])]
  | .keepalive m => .obj [("type", .str m.type)]
  | .ack m => .obj [("type", .str m.type), ("status", .str m.status)]

/-- Go `protocol.NewAckMessage`. -/
def NewAckMessage (status : String) : AckMessage :=
  { type := "ack", status := status }

/-- Counterexample for C6 as stated: the valid protocol message
`ack:identified` does not round-trip — `ParseMessage` recognizes only the
client-to-server types and rejects `"ack"` as unknown. -/
theorem ack_roundtrip_fails :
    ParseMessage (EncodeMessage (Message.ack (NewAckMessage "identified")))
        = .error "unknown message type: ack" ∧
    ParseMessage (EncodeMessage (Message.ack (NewAckMessage "identified")))
        ≠ .ok (Message.ack (NewAckMessage "identified")) := by
  refine ⟨rfl, ?_⟩
  intro hc
  rw [show ParseMessage (EncodeMessage (Message.ack (NewAckMessage "identified")))
      = .error "unknown message type: ack" from rfl] at hc
  exact Except.noConfusion hc

/-- C6 (amended): `ParseMessage ∘ EncodeMessage` is the identity on the
client-to-server messages — identify with its type tag and non-empty
zipcode/city, metrics with its type tag and a well-formed RFC-3339
timestamp, keepalive with its type tag — and `ParseMessage` returns an
error for every input whose type tag is not one of identify, metrics,
keepalive (the server-to-client type `"ack"` included), as well as for
every input without a decodable type tag. -/
theorem protocol_roundtrip_client_messages :
    (∀ m : IdentifyMessage, m.type = "identify" → m.zipcode ≠ "" → m.city ≠ "" →
      ParseMessage (EncodeMessage (.identify m)) = .ok (.identify m)) ∧
    (∀ m : MetricsMessage, m.type = "metrics" →
      rfc3339Valid m.data.timestamp = true →
      ParseMessage (EncodeMessage (.metrics m)) = .ok (.metrics m)) ∧
    (∀ m : KeepaliveMessage, m.type = "keepalive" →
      ParseMessage (EncodeMessage (.keepalive m)) = .ok (.keepalive m)) ∧
    (∀ (j : Json) (t : String), decodeBaseType j = .ok t →
      t ≠ "identify" → t ≠ "metrics" → t ≠ "keepalive" →
      ParseMessage j = .error ("unknown message type: " ++ t)) ∧
    (∀ (j : Json) (e : String), decodeBaseType j = .error e →
      ParseMessage j = .error ("invalid JSON: " ++ e)) := by
  refine ⟨?_, ?_, ?_, ?_, ?_⟩
  · intro m hm hz hc
    obtain ⟨mt, mz, mc⟩ := m
    simp only [IdentifyMessage.mk.injEq] at hm hz hc ⊢
    subst hm
    simp [ParseMessage, EncodeMessage, decodeBaseType, decodeStringField,
      decodeIdentifyMessage, mapGet, validateIdentify, hz, hc,
      Except.bind, bind, pure]
  · intro m hm hv
    have hts : m.data.timestamp ≠ "" := by
      intro heq
      rw [heq] at hv
      exact absurd hv (by decide)
    obtain ⟨mt, md⟩ := m
    obtain ⟨ts, te, hu, pr, ws, wd, po, pl⟩ := md
    simp only [] at hm hv hts
    subst hm
    simp [ParseMessage, EncodeMessage, decodeBaseType, decodeStringField,
      decodeNumField, decodeMetricsMessage, decodeMetricData, mapGet,
      validateMetrics, hv, hts, Except.bind, bind, pure]
  · intro m hm
    obtain ⟨mt⟩ := m
    simp only [] at hm
    subst hm
    simp [ParseMessage, EncodeMessage, decodeBaseType, decodeStringField,
      decodeKeepaliveMessage, mapGet, Except.bind, bind, pure]
  · intro j t hj h1 h2 h3
    simp [ParseMessage, hj, h1, h2, h3]
  · intro j e hj
    simp [ParseMessage, hj]

/-- Witness for C6's amended claim at concrete messages: the identify,
metrics and keepalive round-trips at the scenario inputs, and the unknown
type `"ack"` rejected. -/
theorem protocol_roundtrip_client_messages_witness :
    (ParseMessage (EncodeMessage (.identify
        { type := "identify", zipcode := "90210", city := "Beverly Hills" }))
      = .ok (.identify
        { type := "identify", zipcode := "90210", city := "Beverly Hills" })) ∧
    (ParseMessage (EncodeMessage (.metrics { type := "metrics", data :=
        { timestamp := "2025-10-26T13:30:00Z", temperature := 25.3
          humidity := 62.5, precipitation := 0, windSpeed := 15.2
          windDirection := "NW", pollutionIndex := 45, pollenIndex := 3.2 } }))
      = .ok (.metrics { type := "metrics", data :=
        { timestamp := "2025-10-26T13:30:00Z", temperature := 25.3
          humidity := 62.5, precipitation := 0, windSpeed := 15.2
          windDirection := "NW", pollutionIndex := 45, pollenIndex := 3.2 } })) ∧
    (ParseMessage (EncodeMessage (.keepalive { type := "keepalive" }))
      = .ok (.keepalive { type := "keepalive" })) ∧
    (ParseMessage (.obj [("type", .str "ack"), ("status", .str "alive")])
      = .error "unknown message type: ack") :=
  ⟨protocol_roundtrip_client_messages.1 _ rfl (by decide) (by decide),
   protocol_roundtrip_client_messages.2.1 _ rfl (by decide),
   protocol_roundtrip_client_messages.2.2.1 _ rfl,
   protocol_roundtrip_client_messages.2.2.2.1 _ "ack" rfl
     (by decide) (by decide) (by decide)⟩

/-! ## Identify window of the TCP servers

Go `TCPServer.handleConnection` (src/internal/server/tcp_server.go) and
`WorkerPoolTCPServer.handleConnection` (worker-pool server) run the same
identify sequence: set the identify read deadline and read one frame.
On a read failure — the deadline expiring with no complete frame, or any
other socket error — they log and `return`; the deferred `conn.Close()`
closes the socket and nothing is written.  On a parse failure, a
non-identify message, or a registration failure they write `ack:error`
and return.  On success they register, write `ack:identified`, and enter
the steady-state loop. -/

/-- Outcome of the blocking `reader.ReadString` call under the identify
deadline: an error, or one newline-terminated frame (as a JSON value). -/
inductive ReadResult where
  | failure (err : String)
  | frame (j : Json)

/-- Externally observable outcome of the identify window. -/
structure IdentifyOutcome where
  sentAcks : List AckMessage
  closed : Bool
  registry : Manager
  proceeded : Bool

/-- The identify window of both `handleConnection` variants. -/
def handleIdentify (m : Manager) (connectionID : String) (now : Int)
    (r : ReadResult) : IdentifyOutcome :=
  match r with
  | .failure _ =>
      { sentAcks := [], closed := true, registry := m, proceeded := false }
  | .frame j =>
      match ParseMessage j with
      | .error _ =>
          { sentAcks := [NewAckMessage "error"], closed := true
            registry := m, proceeded := false }
      | .ok (.identify im) =>
          match m.Register connectionID im.zipcode im.city now with
          | .error _ =>
              { sentAcks := [NewAckMessage "error"], closed := true
                registry := m, proceeded := false }
          | .ok m' =>
              { sentAcks := [NewAckMessage "identified"], closed := false
                registry := m', proceeded := true }
      | .ok _ =>
          { sentAcks := [NewAckMessage "error"], closed := true
            registry := m, proceeded := false }

/-- Counterexample for C2 as stated: when the identify timeout elapses
with no bytes received, the handler closes the socket without writing any
ack — no `ack:error` is sent (the claim requires one); no registry entry
exists afterwards. -/
theorem identify_timeout_no_error_ack :
    (handleIdentify (Manager.new 10000) "c1" 0
        (.failure "read tcp: i/o timeout")).sentAcks = [] ∧
    NewAckMessage "error" ∉
      (handleIdentify (Manager.new 10000) "c1" 0
        (.failure "read tcp: i/o timeout")).sentAcks ∧
    (handleIdentify (Manager.new 10000) "c1" 0
        (.failure "read tcp: i/o timeout")).closed = true ∧
    (handleIdentify (Manager.new 10000) "c1" 0
        (.failure "read tcp: i/o timeout")).registry.Get "c1" = none := by
  refine ⟨rfl, ?_, rfl, rfl⟩
  intro hmem
  simp [handleIdentify] at hmem

/-- C2 (amended): whenever the identify window does not end in a
successful identify, the socket is closed and the registry is unchanged
(so no entry exists for a fresh connection id); `ack:error` is written
exactly when a frame was read but was not a valid registrable identify,
while a failed read — the identify timeout with no bytes included —
writes nothing at all. -/
theorem identify_window_failure_behavior (m : Manager) (connectionID : String)
    (now : Int) (r : ReadResult)
    (hnot : (handleIdentify m connectionID now r).proceeded = false) :
    (handleIdentify m connectionID now r).closed = true ∧
    (handleIdentify m connectionID now r).registry = m ∧
    (m.Get connectionID = none →
      (handleIdentify m connectionID now r).registry.Get connectionID = none) ∧
    (∀ err, r = .failure err →
      (handleIdentify m connectionID now r).sentAcks = []) ∧
    (∀ j, r = .frame j →
      (handleIdentify m connectionID now r).sentAcks = [NewAckMessage "error"]) := by
  cases r with
  | failure err =>
      refine ⟨rfl, rfl, fun h => h, fun e he => rfl, ?_⟩
      intro j hj
      exact ReadResult.noConfusion hj
  | frame j =>
      have hclose : ∀ out : IdentifyOutcome,
          handleIdentify m connectionID now (.frame j) = out →
          out = { sentAcks := [NewAckMessage "error"], closed := true
                  registry := m, proceeded := false } →
          (handleIdentify m connectionID now (.frame j)).closed = true ∧
          (handleIdentify m connectionID now (.frame j)).registry = m ∧
          (m.Get connectionID = none →
            (handleIdentify m connectionID now (.frame j)).registry.Get connectionID
              = none) ∧
          (∀ err, (ReadResult.frame j) = .failure err →
            (handleIdentify m connectionID now (.frame j)).sentAcks = []) ∧
          (∀ j', (ReadResult.frame j) = .frame j' →
            (handleIdentify m connectionID now (.frame j)).sentAcks
              = [NewAckMessage "error"]) := by
        intro out hout heq
        rw [hout, heq]
        exact ⟨rfl, rfl, fun h => h, fun e' he => ReadResult.noConfusion he,
          fun j' hj => rfl⟩
      cases hp : ParseMessage j with
      | error e =>
          exact hclose _ rfl (by simp [handleIdentify, hp])
      | ok msg =>
          cases msg with
          | identify im =>
              cases hr : m.Register connectionID im.zipcode im.city now with
              | error e =>
                  exact hclose _ rfl (by simp [handleIdentify, hp, hr])
              | ok m' =>
                  exfalso
                  simp only [handleIdentify, hp, hr] at hnot
                  exact Bool.noConfusion hnot
          | metrics mm =>
              exact hclose _ rfl (by simp [handleIdentify, hp])
          | keepalive km =>
              exact hclose _ rfl (by simp [handleIdentify, hp])
          | ack am =>
              exact hclose _ rfl (by simp [handleIdentify, hp])

/-- Witness for C2's amended claim: a client that sends a metrics frame
first (scenario S2) gets `ack:error`, the socket closed, and no registry
entry. -/
theorem identify_window_failure_behavior_witness :
    ((handleIdentify (Manager.new 10000) "c1" 0
        (.frame (.obj [("type", .str "metrics")]))).proceeded = false) ∧
    ((handleIdentify (Manager.new 10000) "c1" 0
        (.frame (.obj [("type", .str "metrics")]))).closed = true ∧
     (handleIdentify (Manager.new 10000) "c1" 0
        (.frame (.obj [("type", .str "metrics")]))).registry = Manager.new 10000 ∧
     ((Manager.new 10000).Get "c1" = none →
       (handleIdentify (Manager.new 10000) "c1" 0
          (.frame (.obj [("type", .str "metrics")]))).registry.Get "c1" = none) ∧
     (∀ err, (ReadResult.frame (.obj [("type", .str "metrics")])) = .failure err →
       (handleIdentify (Manager.new 10000) "c1" 0
          (.frame (.obj [("type", .str "metrics")]))).sentAcks = []) ∧
     (∀ j, (ReadResult.frame (.obj [("type", .str "metrics")])) = .frame j →
       (handleIdentify (Manager.new 10000) "c1" 0
          (.frame (.obj [("type", .str "metrics")]))).sentAcks
         = [NewAckMessage "error"])) :=
  ⟨rfl, identify_window_failure_behavior (Manager.new 10000) "c1" 0
    (.frame (.obj [("type", .str "metrics")])) rfl⟩

/-! ## Batched persistence worker (src/internal/queue/batch_writer.go)

The relational store is an external collaborator reached through
`database.DB`; it is modelled as a state-threaded oracle whose three
operations may fail.  Kafka record values are JSON (§6.2); offsets are
integers.  `consumer.Commit` failures are logged and ignored by `flush`,
so the model records the offsets passed to `Commit` (the call happens
regardless of its own outcome). -/

/-- Go `protocol.MetricMessage` (timestamps kept as validated text). -/
structure MetricMessage where
  connectionID : String
  zipcode : String
  city : String
  receivedAt : String
  data : MetricData
deriving Repr, DecidableEq

/-- Unmarshal of a `time.Time` struct field: absent or null is the zero
time, a well-formed RFC-3339 string is taken verbatim, anything else
fails (Go `time.Time.UnmarshalJSON`). -/
def decodeTimeField (fields : List (String × Json)) (name : String) :
    Except String String :=
  match mapGet fields name with
  | none => .ok ""
  | some .null => .ok ""
  | some (.str s) => if rfc3339Valid s then .ok s else .error ("cannot parse time " ++ name)
  | some _ => .error ("cannot unmarshal field " ++ name)

/-- Go `protocol.DecodeMetricMessage` (json.Unmarshal into MetricMessage). -/
def DecodeMetricMessage (j : Json) : Except String MetricMessage :=
  match j with
  | .obj fields => do
      let cid ← decodeStringField fields "connection_id"
      let z ← decodeStringField fields "zipcode"
      let c ← decodeStringField fields "city"
      let ra ← decodeTimeField fields "received_at"
      let d ← match mapGet fields "data" with
              | none => pure zeroMetricData
              | some dj => decodeMetricData dj
      .ok { connectionID := cid, zipcode := z, city := c, receivedAt := ra, data := d }
  | _ => .error "cannot unmarshal into MetricMessage"

/-- Go `protocol.ParsedMetricData`: `MetricData` with the client
timestamp parsed (kept as its validated text). -/
structure ParsedMetricData where
  timestamp : String
  temperature : Rat
  humidity : Rat
  precipitation : Rat
  windSpeed : Rat
  windDirection : String
  pollutionIndex : Rat
  pollenIndex : Rat
deriving Repr, DecidableEq

/-- Go `(*MetricData).Parse`: `time.Parse(RFC3339, m.Timestamp)` then a
field-for-field copy. -/
def MetricData.Parse (m : MetricData) : Except String ParsedMetricData :=
  if rfc3339Valid m.timestamp then
    .ok { timestamp := m.timestamp, temperature := m.temperature
          humidity := m.humidity, precipitation := m.precipitation
          windSpeed := m.windSpeed, windDirection := m.windDirection
          pollutionIndex := m.pollutionIndex, pollenIndex := m.pollenIndex }
  else
    .error "cannot parse timestamp"

/-- Go `database.Location` (fields used by the worker). -/
structure Location where
  zipcode : String
  cityName : String
deriving Repr, DecidableEq

/-- Go `database.RawMetric` as built by `processMessage` (the pointer
fields are always non-nil there, so plain values). -/
structure RawMetric where
  zipcode : String
  timestamp : String
  temperature : Rat
  humidity : Rat
  precipitation : Rat
  windSpeed : Rat
  windDirection : String
  pollutionIndex : Rat
  pollenIndex : Rat
  receivedAt : String
deriving Repr, DecidableEq

/-- State-threaded model of the `database.DB` collaborator. -/
structure DbOracle (σ : Type) where
  getLocation : σ → String → (Except String (Option Location)) × σ
  upsertLocation : σ → Location → (Except String Unit) × σ
  insertRawMetric : σ → RawMetric → (Except String Unit) × σ

/-- A Kafka record as seen by the worker. -/
structure KafkaMessage where
  partition : Nat
  offset : Int
  value : Json

/-- Go `BatchWriter.processMessage`: decode, parse, ensure the location
row, insert the raw sample.  Any failure aborts the record. -/
def processMessage {σ : Type} (db : DbOracle σ) (s : σ) (msg : KafkaMessage) :
    (Except String Unit) × σ :=
  match DecodeMetricMessage msg.value with
  | .error e => (.error ("failed to decode message: " ++ e), s)
  | .ok metricMsg =>
      match metricMsg.data.Parse with
      | .error e => (.error ("failed to parse metric data: " ++ e), s)
      | .ok parsedData =>
          match db.getLocation s metricMsg.zipcode with
          | (.error e, s1) => (.error ("failed to get location: " ++ e), s1)
          | (.ok loc, s1) =>
              let upsertStep : (Except String Unit) × σ :=
                match loc with
                | none => db.upsertLocation s1
                    { zipcode := metricMsg.zipcode, cityName := metricMsg.city }
                | some _ => (.ok (), s1)
              match upsertStep with
              | (.error e, s2) => (.error ("failed to create location: " ++ e), s2)
              | (.ok _, s2) =>
                  let rawMetric : RawMetric :=
                    { zipcode := metricMsg.zipcode
                      timestamp := parsedData.timestamp
                      temperature := parsedData.temperature
                      humidity := parsedData.humidity
                      precipitation := parsedData.precipitation
                      windSpeed := parsedData.windSpeed
                      windDirection := parsedData.windDirection
                      pollutionIndex := parsedData.pollutionIndex
                      pollenIndex := parsedData.pollenIndex
                      receivedAt := metricMsg.receivedAt }
                  match db.insertRawMetric s2 rawMetric with
                  | (.error e, s3) => (.error ("failed to insert metric: " ++ e), s3)
                  | (.ok _, s3) => (.ok (), s3)

/-- Result of one `flush`: the offsets passed to `consumer.Commit` in
call order, the success count, and the final store state. -/
structure FlushResult (σ : Type) where
  commits : List Int
  successCount : Nat
  dbState : σ

/-- Go `BatchWriter.flush`: process each record of the batch in order; on
failure log and continue (no commit); on success count it and commit its
offset. -/
def flush {σ : Type} (db : DbOracle σ) : σ → List KafkaMessage → FlushResult σ
  | s, [] => { commits := [], successCount := 0, dbState := s }
  | s, msg :: rest =>
      match processMessage db s msg with
      | (.error _, s') => flush db s' rest
      | (.ok _, s') =>
          let r := flush db s' rest
          { commits := msg.offset :: r.commits
            successCount := r.successCount + 1
            dbState := r.dbState }

/-- The per-record outcome trace of a flush: each record's offset paired
with whether its processing (decode, location upsert, raw insert)
succeeded, in batch order over the evolving store state. -/
def processOutcomes {σ : Type} (db : DbOracle σ) : σ → List KafkaMessage → List (Int × Bool)
  | _, [] => []
  | s, msg :: rest =>
      match processMessage db s msg with
      | (.error _, s') => (msg.offset, false) :: processOutcomes db s' rest
      | (.ok _, s') => (msg.offset, true) :: processOutcomes db s' rest

/-- C7: in every flushed batch, `Commit` is called exactly for the
records whose processing succeeded — a record that fails is never
committed in that flush, a record that succeeds always is. -/
theorem flush_commits_iff_success {σ : Type} (db : DbOracle σ) (s : σ)
    (batch : List KafkaMessage) :
    (flush db s batch).commits
      = ((processOutcomes db s batch).filter (fun p => p.2)).map (fun p => p.1) ∧
    (flush db s batch).successCount
      = ((processOutcomes db s batch).filter (fun p => p.2)).length := by
  induction batch generalizing s with
  | nil => simp [flush, processOutcomes]
  | cons msg rest ih =>
      cases hp : processMessage db s msg with
      | mk res s' =>
          cases res with
          | error e =>
              simp only [flush, processOutcomes, hp]
              simpa using ih s'
          | ok u =>
              simp only [flush, processOutcomes, hp]
              have := ih s'
              simp [this.1, this.2]

/-! ## Alarm evaluator (package `alarming`: Evaluator in
src/internal/connection/manager.go, StateManager in src/unnamed/part_004)

Time is `Int` nanoseconds (`time.Duration(minutes) * time.Minute` becomes
`minutes * nsPerMinute`).  The Redis state store is the association list
keyed `"alarm_state:" + zipcode + ":" + metric` exactly as in
`StateManager`; `GetState` returns the zero CLEAR record when the key is
absent (`redis.Nil`).  The relational store and the alarm producer are
modelled on the success path: `InsertAlarmLog` assigns the id passed as
`newAlarmID`, and every call is recorded as an `Effect` so the claims can
speak about which external writes happen. -/

/-- Nanoseconds per minute (Go `time.Minute`). -/
def nsPerMinute : Int := 60000000000

/-- Nanoseconds per second (Go `time.Second`). -/
def nsPerSecond : Int := 1000000000

/-- Go `alarming` state constants. -/
def AlarmStateClear : String := "CLEAR"

/-- Go `alarming.AlarmStatePending`. -/
def AlarmStatePending : String := "PENDING_ALARM"

/-- Go `alarming.AlarmStateActive`. -/
def AlarmStateActive : String := "ALARMING"

/-- Go `alarming.AlarmState`. -/
structure AlarmState where
  status : String
  breachStartTime : Int
  lastChecked : Int
  breachValue : Rat
  alarmID : Int
deriving Repr, DecidableEq

/-- Go `database.AlarmThreshold` (fields read by the evaluator). -/
structure AlarmThreshold where
  zipcode : String
  metricName : String
  operator : String
  thresholdValue : Rat
  durationMinutes : Int
deriving Repr, DecidableEq

/-- Go `database.AlarmLog` as built by `triggerAlarm` (the JSON snapshot
of the threshold is carried as the threshold value itself). -/
structure AlarmLog where
  zipcode : String
  metricName : String
  breachValue : Rat
  thresholdConfig : AlarmThreshold
  startTime : Int
  status : String
  alarmID : Int
deriving Repr, DecidableEq

/-- Go `protocol.AlarmNotification`. -/
structure AlarmNotification where
  type : String
  zipcode : String
  city : String
  metric : String
  value : Rat
  threshold : Rat
  operator : String
  duration : Int
  startTime : Int
  alarmID : Int
deriving Repr, DecidableEq

/-- One external call made during threshold evaluation. -/
inductive Effect where
  | setState (key : String) (st : AlarmState)
  | deleteState (key : String)
  | insertAlarmLog (log : AlarmLog)
  | updateAlarmLogCleared (alarmID : Int) (endTime : Int)
  | publish (key : String) (notif : AlarmNotification)
deriving Repr, DecidableEq

/-- An effect on the relational store or the alarm topic (cache writes
are internal state, not externally visible). -/
def isExternalEffect : Effect → Bool
  | .insertAlarmLog _ => true
  | .updateAlarmLogCleared _ _ => true
  | .publish _ _ => true
  | _ => false

/-- Go `StateManager` key: `alarm_state:{zipcode}:{metric}` built with
`fmt.Sprintf`. -/
def stateKey (zipcode metric : String) : String :=
  "alarm_state:" ++ zipcode ++ ":" ++ metric

/-- Go `StateManager.GetState`: absent key (`redis.Nil`) is the CLEAR
zero record. -/
def GetState (cache : List (String × AlarmState)) (zipcode metric : String) :
    AlarmState :=
  match mapGet cache (stateKey zipcode metric) with
  | some st => st
  | none => { status := AlarmStateClear, breachStartTime := 0, lastChecked := 0
              breachValue := 0, alarmID := 0 }

/-- Go `alarming.evaluateCondition`. -/
def evaluateCondition (value : Rat) (operator : String) (threshold : Rat) : Bool :=
  if operator = ">" then value > threshold
  else if operator = "<" then value < threshold
  else if operator = ">=" then value ≥ threshold
  else if operator = "<=" then value ≤ threshold
  else false

/-- Go `Evaluator.triggerAlarm` (success path): insert the alarm-log row
with start-time = breach-start and the threshold snapshot, move the state
to ALARMING recording the new row id, publish `ALARM_TRIGGERED` keyed
`zipcode-metric`. -/
def triggerAlarm (cache : List (String × AlarmState)) (zipcode city : String)
    (th : AlarmThreshold) (value : Rat) (state : AlarmState)
    (now newAlarmID : Int) : List (String × AlarmState) × List Effect :=
  let key := stateKey zipcode th.metricName
  let alarmLog : AlarmLog :=
    { zipcode := zipcode, metricName := th.metricName, breachValue := value
      thresholdConfig := th, startTime := state.breachStartTime
      status := "ACTIVE", alarmID := newAlarmID }
  let st' : AlarmState :=
    { state with status := AlarmStateActive, alarmID := newAlarmID, lastChecked := now }
  let notif : AlarmNotification :=
    { type := "ALARM_TRIGGERED", zipcode := zipcode, city := city
      metric := th.metricName, value := value, threshold := th.thresholdValue
      operator := th.operator, duration := th.durationMinutes
      startTime := state.breachStartTime, alarmID := newAlarmID }
  (mapSet cache key st',
   [.insertAlarmLog alarmLog, .setState key st',
    .publish (zipcode ++ "-" ++ th.metricName) notif])

/-- Go `Evaluator.clearAlarm` (success path): update the alarm-log row to
CLEARED with end-time = now (when an id is recorded), delete the state,
publish `ALARM_CLEARED`. -/
def clearAlarm (cache : List (String × AlarmState)) (zipcode city : String)
    (th : AlarmThreshold) (state : AlarmState) (now : Int) :
    List (String × AlarmState) × List Effect :=
  let key := stateKey zipcode th.metricName
  let notif : AlarmNotification :=
    { type := "ALARM_CLEARED", zipcode := zipcode, city := city
      metric := th.metricName, value := 0, threshold := th.thresholdValue
      operator := "", duration := 0, startTime := 0, alarmID := state.alarmID }
  (mapDel cache key,
   (if 0 < state.alarmID then [.updateAlarmLogCleared state.alarmID now] else [])
     ++ [.deleteState key, .publish (zipcode ++ "-" ++ th.metricName) notif])

/-- Go `Evaluator.handleBreach`. -/
def handleBreach (cache : List (String × AlarmState)) (zipcode city : String)
    (th : AlarmThreshold) (value : Rat) (state : AlarmState)
    (now newAlarmID : Int) : List (String × AlarmState) × List Effect :=
  let key := stateKey zipcode th.metricName
  if state.status = AlarmStateClear then
    let newState : AlarmState :=
      { status := AlarmStatePending, breachStartTime := now, lastChecked := now
        breachValue := value, alarmID := 0 }
    (mapSet cache key newState, [.setState key newState])
  else if state.status = AlarmStatePending then
    if th.durationMinutes * nsPerMinute ≤ now - state.breachStartTime then
      triggerAlarm cache zipcode city th value state now newAlarmID
    else
      let st' := { state with lastChecked := now, breachValue := value }
      (mapSet cache key st', [.setState key st'])
  else if state.status = AlarmStateActive then
    let st' := { state with lastChecked := now }
    (mapSet cache key st', [.setState key st'])
  else (cache, [])

/-- Go `Evaluator.handleNoBreach`. -/
def handleNoBreach (cache : List (String × AlarmState)) (zipcode city : String)
    (th : AlarmThreshold) (state : AlarmState) (now : Int) :
    List (String × AlarmState) × List Effect :=
  let key := stateKey zipcode th.metricName
  if state.status = AlarmStateClear then (cache, [])
  else if state.status = AlarmStatePending then
    (mapDel cache key, [.deleteState key])
  else if state.status = AlarmStateActive then
    clearAlarm cache zipcode city th state now
  else (cache, [])

/-- Go `Evaluator.evaluateThreshold` (success path): decide the breach,
read the state, branch. -/
def evaluateThreshold (cache : List (String × AlarmState)) (zipcode city : String)
    (th : AlarmThreshold) (value : Rat) (now newAlarmID : Int) :
    List (String × AlarmState) × List Effect :=
  let breached := evaluateCondition value th.operator th.thresholdValue
  let state := GetState cache zipcode th.metricName
  if breached then handleBreach cache zipcode city th value state now newAlarmID
  else handleNoBreach cache zipcode city th state now

/-- Go `Evaluator.extractMetricValue`: the source returns a pointer to
the corresponding `ParsedMetricData` field, which is never nil for the
six known metric names; only an unknown name yields nil. -/
def extractMetricValue (d : ParsedMetricData) (metricName : String) : Option Rat :=
  if metricName = "temperature" then some d.temperature
  else if metricName = "humidity" then some d.humidity
  else if metricName = "precipitation" then some d.precipitation
  else if metricName = "wind_speed" then some d.windSpeed
  else if metricName = "pollution_index" then some d.pollutionIndex
  else if metricName = "pollen_index" then some d.pollenIndex
  else none

/-- Go `Evaluator.EvaluateMetric` with the location's thresholds given:
parse the sample, then for each threshold extract the metric value,
skipping only when it is nil, and run the state machine. -/
def EvaluateMetric (cache : List (String × AlarmState)) (msg : MetricMessage)
    (thresholds : List AlarmThreshold) (now newAlarmID : Int) :
    Except String (List (String × AlarmState) × List Effect) :=
  match msg.data.Parse with
  | .error e => .error ("failed to parse metric data: " ++ e)
  | .ok parsedData =>
      .ok (thresholds.foldl (fun acc th =>
        match extractMetricValue parsedData th.metricName with
        | none => acc
        | some value =>
            let r := evaluateThreshold acc.1 msg.zipcode msg.city th value now newAlarmID
            (r.1, acc.2 ++ r.2)) (cache, []))

/-- Go `alarming.Evaluator`'s threshold-cache fields. -/
structure Evaluator where
  thresholdCache : List (String × List AlarmThreshold)
  lastCacheLoad : Int
  cacheValidity : Int
deriving Repr, DecidableEq

/-- Go `alarming.NewEvaluator`: empty cache, zero last-load instant,
5-minute validity. -/
def NewEvaluator : Evaluator :=
  { thresholdCache := [], lastCacheLoad := 0, cacheValidity := 5 * nsPerMinute }

/-- Go `Evaluator.getThresholds`: serve from the cache whenever the
single shared `lastCacheLoad` instant is fresh and the location has an
entry; otherwise query the store, cache the rows, and reset the shared
instant.  The returned flag records whether the store was queried. -/
def getThresholds (e : Evaluator) (dbThresholds : String → List AlarmThreshold)
    (zipcode : String) (now : Int) : List AlarmThreshold × Evaluator × Bool :=
  if now - e.lastCacheLoad < e.cacheValidity then
    match mapGet e.thresholdCache zipcode with
    | some ts => (ts, e, false)
    | none =>
        let ts := dbThresholds zipcode
        (ts, { e with thresholdCache := mapSet e.thresholdCache zipcode ts
                      lastCacheLoad := now }, true)
  else
    let ts := dbThresholds zipcode
    (ts, { e with thresholdCache := mapSet e.thresholdCache zipcode ts
                  lastCacheLoad := now }, true)

theorem GetState_mapSet (cache : List (String × AlarmState)) (zipcode metric : String)
    (st : AlarmState) :
    GetState (mapSet cache (stateKey zipcode metric) st) zipcode metric = st := by
  simp [GetState, mapGet_mapSet_self]

theorem GetState_mapDel (cache : List (String × AlarmState)) (zipcode metric : String)
    (hn : KeysNodup cache) :
    GetState (mapDel cache (stateKey zipcode metric)) zipcode metric
      = { status := AlarmStateClear, breachStartTime := 0, lastChecked := 0
          breachValue := 0, alarmID := 0 } := by
  simp [GetState, mapGet_mapDel_self _ _ hn]

/-- C1: for every (location, metric) state, (a) the evaluator's cache
entry can become ALARMING only when it already was, or from
PENDING_ALARM with a breaching sample and `now − breach-start ≥
duration` of wall time; (b) a single non-breaching sample in
PENDING_ALARM deletes the state — back to CLEAR — with no alarm-log
write and no event published; (c) the first breaching sample from CLEAR
creates PENDING_ALARM with breach-start = now and no external effect. -/
theorem alarm_machine_transitions
    (cache : List (String × AlarmState)) (zipcode city : String)
    (th : AlarmThreshold) (value : Rat) (now newAlarmID : Int)
    (hn : KeysNodup cache) :
    ∀ st r, st = GetState cache zipcode th.metricName →
      r = evaluateThreshold cache zipcode city th value now newAlarmID →
      ((GetState r.1 zipcode th.metricName).status = AlarmStateActive →
        st.status = AlarmStateActive ∨
        (st.status = AlarmStatePending ∧
         evaluateCondition value th.operator th.thresholdValue = true ∧
         th.durationMinutes * nsPerMinute ≤ now - st.breachStartTime)) ∧
      (st.status = AlarmStatePending →
        evaluateCondition value th.operator th.thresholdValue = false →
        r.1 = mapDel cache (stateKey zipcode th.metricName) ∧
        (GetState r.1 zipcode th.metricName).status = AlarmStateClear ∧
        r.2 = [.deleteState (stateKey zipcode th.metricName)] ∧
        r.2.filter isExternalEffect = []) ∧
      (st.status = AlarmStateClear →
        evaluateCondition value th.operator th.thresholdValue = true →
        GetState r.1 zipcode th.metricName =
          { status := AlarmStatePending, breachStartTime := now
            lastChecked := now, breachValue := value, alarmID := 0 } ∧
        r.2.filter isExternalEffect = []) := by
  intro st r hst hr
  subst hst
  subst hr
  simp only [evaluateThreshold]
  by_cases hbr : evaluateCondition value th.operator th.thresholdValue = true
  · rw [if_pos hbr]
    by_cases hclear : (GetState cache zipcode th.metricName).status = AlarmStateClear
    · simp only [handleBreach, if_pos hclear]
      refine ⟨?_, ?_, ?_⟩
      · intro hact
        rw [GetState_mapSet] at hact
        simp [AlarmStatePending, AlarmStateActive] at hact
      · intro hpend
        exact absurd (hclear.symm.trans hpend) (by decide)
      · intro _ _
        exact ⟨GetState_mapSet _ _ _ _, by simp [isExternalEffect]⟩
    · by_cases hpend : (GetState cache zipcode th.metricName).status = AlarmStatePending
      · simp only [handleBreach, if_neg hclear, if_pos hpend]
        by_cases hdm : th.durationMinutes * nsPerMinute
            ≤ now - (GetState cache zipcode th.metricName).breachStartTime
        · rw [if_pos hdm]
          simp only [triggerAlarm]
          refine ⟨?_, ?_, ?_⟩
          · intro _
            exact Or.inr ⟨hpend, hbr, hdm⟩
          · intro _ hfalse
            exact absurd hbr (by simp [hfalse])
          · intro hc
            exact absurd (hc.symm.trans hpend) (by decide)
        · rw [if_neg hdm]
          refine ⟨?_, ?_, ?_⟩
          · intro hact
            rw [GetState_mapSet] at hact
            simp only at hact
            exact absurd (hpend.symm.trans hact) (by decide)
          · intro _ hfalse
            exact absurd hbr (by simp [hfalse])
          · intro hc
            exact absurd (hc.symm.trans hpend) (by decide)
      · by_cases hact : (GetState cache zipcode th.metricName).status = AlarmStateActive
        · simp only [handleBreach, if_neg hclear, if_neg hpend, if_pos hact]
          refine ⟨?_, ?_, ?_⟩
          · intro _
            exact Or.inl hact
          · intro hp
            exact absurd hp hpend
          · intro hc
            exact absurd hc hclear
        · simp only [handleBreach, if_neg hclear, if_neg hpend, if_neg hact]
          refine ⟨?_, ?_, ?_⟩
          · intro h
            exact absurd h hact
          · intro hp
            exact absurd hp hpend
          · intro hc
            exact absurd hc hclear
  · rw [if_neg hbr]
    by_cases hclear : (GetState cache zipcode th.metricName).status = AlarmStateClear
    · simp only [handleNoBreach, if_pos hclear]
      refine ⟨?_, ?_, ?_⟩
      · intro hact
        exact absurd (hclear.symm.trans hact) (by decide)
      · intro hp
        exact absurd (hclear.symm.trans hp) (by decide)
      · intro _ hb
        exact absurd hb hbr
    · by_cases hpend : (GetState cache zipcode th.metricName).status = AlarmStatePending
      · simp only [handleNoBreach, if_neg hclear, if_pos hpend]
        refine ⟨?_, ?_, ?_⟩
        · intro hact
          rw [GetState_mapDel _ _ _ hn] at hact
          simp [AlarmStateClear, AlarmStateActive] at hact
        · intro _ _
          refine ⟨by simp, ?_, by simp, by simp [isExternalEffect]⟩
          rw [GetState_mapDel _ _ _ hn]
        · intro hc
          exact absurd hc hclear
      · by_cases hact : (GetState cache zipcode th.metricName).status = AlarmStateActive
        · simp only [handleNoBreach, if_neg hclear, if_neg hpend, if_pos hact,
            clearAlarm]
          refine ⟨?_, ?_, ?_⟩
          · intro hac
            rw [GetState_mapDel _ _ _ hn] at hac
            simp [AlarmStateClear, AlarmStateActive] at hac
          · intro hp
            exact absurd hp hpend
          · intro hc
            exact absurd hc hclear
        · simp only [handleNoBreach, if_neg hclear, if_neg hpend, if_neg hact]
          refine ⟨?_, ?_, ?_⟩
          · intro h
            exact absurd h hact
          · intro hp
            exact absurd hp hpend
          · intro hc
            exact absurd hc hclear

/-- Threshold used by the concrete alarm scenarios (S4 of the spec). -/
def c1th : AlarmThreshold :=
  { zipcode := "90210", metricName := "temperature", operator := ">"
    thresholdValue := 30, durationMinutes := 10 }

/-- Witness for C1 at a concrete input: the first breaching sample
(31 > 30) from CLEAR creates PENDING_ALARM with breach-start = now and
no external effect. -/
theorem alarm_machine_transitions_witness :
    KeysNodup ([] : List (String × AlarmState)) ∧
    (GetState (evaluateThreshold [] "90210" "Beverly Hills" c1th 31 0 1).1
        "90210" "temperature" =
      { status := AlarmStatePending, breachStartTime := 0, lastChecked := 0
        breachValue := 31, alarmID := 0 } ∧
     (evaluateThreshold [] "90210" "Beverly Hills" c1th 31 0 1).2.filter
        isExternalEffect = []) := by
  have hn : KeysNodup ([] : List (String × AlarmState)) := by simp [KeysNodup]
  refine ⟨hn, ?_⟩
  have h := alarm_machine_transitions [] "90210" "Beverly Hills" c1th 31 0 1 hn
    _ _ rfl rfl
  exact h.2.2 (by rfl) (by rfl)

/-- Sample JSON for C8: a metrics record with no `temperature` field
(sensor failure) for a location with an active `temperature < 5`
threshold. -/
def c8msgJson : Json :=
  .obj [("connection_id", .str "c1"), ("zipcode", .str "90210"),
        ("city", .str "Beverly Hills"), ("received_at", .str "2025-10-26T13:30:00Z"),
        ("data", .obj [("timestamp", .str "2025-10-26T13:30:00Z"),
                       ("humidity", .num 50)])]

/-- The decode of `c8msgJson`: the absent temperature becomes `0.0`. -/
def c8msg : MetricMessage :=
  { connectionID := "c1", zipcode := "90210", city := "Beverly Hills"
    receivedAt := "2025-10-26T13:30:00Z"
    data := { timestamp := "2025-10-26T13:30:00Z", temperature := 0, humidity := 50
              precipitation := 0, windSpeed := 0, windDirection := ""
              pollutionIndex := 0, pollenIndex := 0 } }

/-- An active low-temperature threshold for the sample's location. -/
def c8th : AlarmThreshold :=
  { zipcode := "90210", metricName := "temperature", operator := "<"
    thresholdValue := 5, durationMinutes := 10 }

/-- The parse of `c8msg`'s data. -/
def c8parsed : ParsedMetricData :=
  { timestamp := "2025-10-26T13:30:00Z", temperature := 0, humidity := 50
    precipitation := 0, windSpeed := 0, windDirection := ""
    pollutionIndex := 0, pollenIndex := 0 }

/-- The state the evaluator creates for the absent metric. -/
def c8pending : AlarmState :=
  { status := AlarmStatePending, breachStartTime := 0, lastChecked := 0
    breachValue := 0, alarmID := 0 }

/-- C8 fails on the code (code bug): a sample whose temperature is absent
decodes to `temperature = 0.0`; `extractMetricValue` — which returns a
pointer to a plain `float64` struct field — yields `some 0`, never nil,
for the six known metrics, so the `value == nil` skip is dead code; the
evaluator then evaluates the `temperature < 5` threshold against `0.0`
and creates a PENDING_ALARM state with a cache write instead of skipping
the threshold. -/
theorem absent_metric_not_skipped :
    DecodeMetricMessage c8msgJson = .ok c8msg ∧
    c8msg.data.Parse = .ok c8parsed ∧
    extractMetricValue c8parsed "temperature" = some 0 ∧
    EvaluateMetric [] c8msg [c8th] 0 1 =
      .ok ([(stateKey "90210" "temperature", c8pending)],
           [.setState (stateKey "90210" "temperature") c8pending]) :=
  ⟨rfl, rfl, rfl, rfl⟩

/-- Threshold returned by the store for location 90210 in the C9 run. -/
def c9thA : AlarmThreshold :=
  { zipcode := "90210", metricName := "temperature", operator := ">"
    thresholdValue := 30, durationMinutes := 10 }

/-- Threshold returned by the store for location 33139 in the C9 run. -/
def c9thB : AlarmThreshold :=
  { zipcode := "33139", metricName := "humidity", operator := ">"
    thresholdValue := 80, durationMinutes := 5 }

/-- The relational store's active thresholds per location for the C9 run. -/
def c9db : String → List AlarmThreshold := fun z =>
  if z = "90210" then [c9thA] else if z = "33139" then [c9thB] else []

/-- Evaluator state after loading 90210 at t = 0. -/
def c9e1 : Evaluator := (getThresholds NewEvaluator c9db "90210" 0).2.1

/-- Evaluator state after additionally loading 33139 at t = 360 s. -/
def c9e2 : Evaluator := (getThresholds c9e1 c9db "33139" (360 * nsPerSecond)).2.1

/-- C9 fails on the code (code bug): freshness is decided by the single
shared `lastCacheLoad` instant, not per location.  Loading 90210 at t=0
and 33139 at t=360s, a getThresholds call for 90210 at t=420s — when its
cached entry is 420 s old, past the 300 s TTL — performs no store query,
because the shared instant was refreshed by the 33139 load 60 s earlier;
it serves the stale entry loaded at t=0. -/
theorem threshold_cache_shared_staleness :
    (getThresholds NewEvaluator c9db "90210" 0).2.2 = true ∧
    (getThresholds c9e1 c9db "33139" (360 * nsPerSecond)).2.2 = true ∧
    (getThresholds c9e2 c9db "90210" (420 * nsPerSecond)).2.2 = false ∧
    (getThresholds c9e2 c9db "90210" (420 * nsPerSecond)).1 = [c9thA] ∧
    NewEvaluator.cacheValidity < 420 * nsPerSecond - 0 :=
  ⟨rfl, rfl, rfl, rfl, by decide⟩

end WeatherServer
